import Mathlib

/-!
# A verification model of the gojsonlex streaming JSON lexer

This file gives a shallow embedding in Lean 4 of the core of the
`gojsonlex` package: the in-place string unescaper (`bytesUnescaper` /
`UnescapeBytesInplace` together with its hex and UTF-16 helpers) and the
state-machine lexer (`JSONLexer` with `TokenFast` / `fetchNewData`).

Conventions of the embedding:

* Go byte buffers are `List Nat`, each element a byte value (< 256 in any
  real input; the definitions are total on `Nat`).
* Go runes obtained as `rune(c)` from a byte `c` are the same numeric value,
  so rune classification helpers (`unicode.IsDigit`, `unicode.IsSpace`,
  `unicode.ToLower`) are specialised to the Latin-1 range 0..255, which is
  the only range a byte can produce.
* In-place writes through a slice are positional list updates (`List.set`);
  like a Go write through a slice they change one position and nothing else.
  (Go panics on an out-of-range write; `List.set` ignores it.  All writes
  performed by the modelled code are proved in range, so the two agree on
  every reachable state.)
* Fallible Go functions returning `(T, error)` become `Except Err T` with an
  explicit error enumeration carrying the payloads the Go messages quote.
* `float64` values are not modelled: a `Number` token carries the raw bytes
  of the numeric literal, and the syntactic acceptance check of Go's
  `strconv.ParseFloat` is modelled by `goParseFloatAccepts`.  Two number
  tokens built from identical literals are equal, which refines equality of
  the parsed `float64` values.
-/

namespace Gojsonlex

/-! ## Byte-level character classification helpers

These model `unicode.IsDigit`, `unicode.IsSpace`, `unicode.ToLower`,
`IsDelim`, `IsValidEscapedSymbol`, `IsHexDigit` and `CanAppearInNumber`
applied to `rune(c)` for a byte `c` (hence restricted to 0..255: in that
range the Unicode `Nd` digits are exactly `'0'..'9'`, the white space
characters are TAB, LF, VT, FF, CR, SPACE, NEL (0x85) and NBSP (0xA0), and
the letters with a distinct lower case are `'A'..'Z'` and `'À'..'Þ'` minus
the multiplication sign 0xD7). -/

/-- `unicode.IsDigit(rune(c))` for a byte `c`. -/
def isDigitByte (c : Nat) : Bool := 48 ≤ c && c ≤ 57

/-- `unicode.IsSpace(rune(c))` for a byte `c`. -/
def isSpaceByte (c : Nat) : Bool :=
  c = 9 || c = 10 || c = 11 || c = 12 || c = 13 || c = 32 || c = 133 || c = 160

/-- `unicode.ToLower(rune(c))` for a byte `c`. -/
def toLowerByte (c : Nat) : Nat :=
  if 65 ≤ c && c ≤ 90 then c + 32
  else if 192 ≤ c && c ≤ 222 && c ≠ 215 then c + 32
  else c

/-- `IsDelim` from token.go: reports whether the byte is a JSON delimiter. -/
def IsDelim (c : Nat) : Bool :=
  c = 123 || c = 125 || c = 91 || c = 93 || c = 58 || c = 44

/-- `IsValidEscapedSymbol` from token.go. -/
def IsValidEscapedSymbol (c : Nat) : Bool :=
  c = 110 || c = 114 || c = 116 || c = 98 || c = 102 ||
  c = 92 || c = 47 || c = 34 || c = 117 || c = 85

/-- `IsHexDigit` from token.go. -/
def IsHexDigit (c : Nat) : Bool :=
  isDigitByte c || (97 ≤ c && c ≤ 102) || (65 ≤ c && c ≤ 70)

/-- `CanAppearInNumber` from token.go: digits, `-`, `+`, `.`, `e`, `E`. -/
def CanAppearInNumber (c : Nat) : Bool :=
  isDigitByte c || c = 45 || c = 43 || c = 46 || c = 101 || c = 69

/-! ## Hex and UTF-16 helpers -/

/-- One step of `HexBytesToUint`: the value of a single hex digit byte. -/
def hexDigitValue (c : Nat) : Option Nat :=
  if 48 ≤ c && c ≤ 57 then some (c - 48)
  else if 97 ≤ c && c ≤ 102 then some (c - 97 + 10)
  else if 65 ≤ c && c ≤ 70 then some (c - 65 + 10)
  else none

/-- `HexBytesToUint` from token.go: big-endian accumulation of hex digit
bytes; any non-hex byte is an error (modelled as `none`). -/
def HexBytesToUint (l : List Nat) : Option Nat :=
  l.foldlM (fun acc c => (hexDigitValue c).map (fun v => acc * 16 + v)) 0

/-- `utf16.IsSurrogate`: reports whether the value is a UTF-16 surrogate
code unit (0xD800..0xDFFF). -/
def IsSurrogate (r : Nat) : Bool := 0xD800 ≤ r && r < 0xE000

/-- `utf16.DecodeRune`: combine a surrogate pair, or the replacement
character 0xFFFD when the pair is not a valid high/low surrogate pair. -/
def utf16DecodeRune (r1 r2 : Nat) : Nat :=
  if 0xD800 ≤ r1 && r1 < 0xDC00 && 0xDC00 ≤ r2 && r2 < 0xE000 then
    0x10000 + (r1 - 0xD800) * 0x400 + (r2 - 0xDC00)
  else 0xFFFD

/-- `utf8.EncodeRune`: the UTF-8 byte sequence of a code point (surrogates
and out-of-range values encode the replacement character, as in Go). -/
def utf8EncodeRune (r : Nat) : List Nat :=
  if r < 0x80 then [r]
  else if r < 0x800 then
    [0xC0 + r / 0x40, 0x80 + r % 0x40]
  else if IsSurrogate r || 0x10FFFF < r then
    [0xEF, 0xBF, 0xBD]
  else if r < 0x10000 then
    [0xE0 + r / 0x1000, 0x80 + (r / 0x40) % 0x40, 0x80 + r % 0x40]
  else
    [0xF0 + r / 0x40000, 0x80 + (r / 0x1000) % 0x40,
     0x80 + (r / 0x40) % 0x40, 0x80 + r % 0x40]

/-- Write a list of bytes into a buffer starting at position `i`
(`utf8.EncodeRune(dst[i:], r)` style positional writes). -/
def listWrite (l : List Nat) (i : Nat) : List Nat → List Nat
  | [] => l
  | b :: bs => listWrite (l.set i b) (i + 1) bs

/-! ## The in-place unescaper (`bytesUnescaper`) -/

/-- Errors of `UnescapeBytesInplace` (the Go code formats each of these as a
distinct `fmt.Errorf` message; the payloads are the values quoted there). -/
inductive UnescapeError where
  | invalidUnicodeSequence (seq : List Nat)
  | missingSecondSeqPoint (first : Nat)
  | invalidEscapeSequence (c : Nat)
  | invalidSurrogatePair (first second : Nat)
  | incompleteEscapeSequence
  deriving DecidableEq, Repr

instance exceptDecidableEq {e a : Type} [DecidableEq e] [DecidableEq a] :
    DecidableEq (Except e a) := fun x y =>
  match x, y with
  | .error v, .error w =>
    if h : v = w then .isTrue (by rw [h])
    else .isFalse (by intro hh; cases hh; exact h rfl)
  | .error _, .ok _ => .isFalse (by intro hh; cases hh)
  | .ok _, .error _ => .isFalse (by intro hh; cases hh)
  | .ok v, .ok w =>
    if h : v = w then .isTrue (by rw [h])
    else .isFalse (by intro hh; cases hh; exact h rfl)

/-- The `bytesUnescaper` state from token.go.  `input` is the buffer being
rewritten in place; `readIter` is passed separately to the stepping
functions, exactly as the Go loop variable is. -/
structure bytesUnescaper where
  writeIter : Nat
  input : List Nat
  pendingEscapedSymbol : Bool
  pendingUnicodeBytes : Nat
  pendingSecondUTF16SeqPoint : Bool
  firstUTF16SeqPoint : Nat
  deriving DecidableEq, Repr

namespace bytesUnescaper

/-- The slice `u.input[readIter+1-4 : readIter+1]` read by
`processUnicodeByte`: the four hex digit bytes of a `\uXXXX` group ending
at `readIter`. -/
def utf16SequenceAt (l : List Nat) (readIter : Nat) : List Nat :=
  [l.getD (readIter + 1 - 4) 0, l.getD (readIter + 1 - 3) 0,
   l.getD (readIter + 1 - 2) 0, l.getD (readIter + 1 - 1) 0]

/-- `processUnicodeByte`: consume one byte of a `\uXXXX` group; on the
fourth hex byte decode the code unit, either holding it as a pending
surrogate, combining it with a pending surrogate, or emitting it. -/
def processUnicodeByte (u : bytesUnescaper) (readIter : Nat) :
    Except UnescapeError bytesUnescaper :=
  let pending := u.pendingUnicodeBytes - 1
  if pending ≠ 0 then .ok { u with pendingUnicodeBytes := pending }
  else
    match HexBytesToUint (utf16SequenceAt u.input readIter) with
    | none => .error (.invalidUnicodeSequence (utf16SequenceAt u.input readIter))
    | some runeAsUint =>
      let outRune := runeAsUint
      if IsSurrogate outRune && !u.pendingSecondUTF16SeqPoint then
        .ok { u with pendingUnicodeBytes := pending,
                     pendingSecondUTF16SeqPoint := true,
                     firstUTF16SeqPoint := outRune }
      else if u.pendingSecondUTF16SeqPoint then
        -- a second code unit arrived: decode the pair
        let outRune2 := utf16DecodeRune u.firstUTF16SeqPoint outRune
        if outRune2 = 0xFFFD then
          .error (.invalidSurrogatePair u.firstUTF16SeqPoint outRune2)
        else
          let bs := utf8EncodeRune outRune2
          .ok { u with pendingUnicodeBytes := pending,
                       pendingSecondUTF16SeqPoint := false,
                       input := listWrite u.input u.writeIter bs,
                       writeIter := u.writeIter + bs.length }
      else
        let bs := utf8EncodeRune outRune
        .ok { u with pendingUnicodeBytes := pending,
                     input := listWrite u.input u.writeIter bs,
                     writeIter := u.writeIter + bs.length }

/-- `processSpecialByte`: the byte after a backslash. -/
def processSpecialByte (u : bytesUnescaper) (c : Nat) :
    Except UnescapeError bytesUnescaper :=
  let u := { u with pendingEscapedSymbol := false }
  if c = 117 || c = 85 then
    .ok { u with pendingUnicodeBytes := 4 }
  else if u.pendingSecondUTF16SeqPoint then
    .error (.missingSecondSeqPoint u.firstUTF16SeqPoint)
  else
    let outRune : Option Nat :=
      if c = 110 then some 10
      else if c = 114 then some 13
      else if c = 116 then some 9
      else if c = 98 then some 8
      else if c = 102 then some 12
      else if c = 92 then some 92
      else if c = 47 then some 47
      else if c = 34 then some 34
      else none
    match outRune with
    | none => .error (.invalidEscapeSequence c)
    | some b => .ok { u with input := u.input.set u.writeIter b,
                             writeIter := u.writeIter + 1 }

/-- `processRegularByte`: copy the byte to the write cursor. -/
def processRegularByte (u : bytesUnescaper) (c : Nat) : bytesUnescaper :=
  { u with input := u.input.set u.writeIter c,
           writeIter := u.writeIter + 1 }

/-- One iteration of the `doUnescaping` loop at read position `readIter`. -/
def step (u : bytesUnescaper) (readIter : Nat) :
    Except UnescapeError bytesUnescaper :=
  let currByte := u.input.getD readIter 0
  if u.pendingUnicodeBytes > 0 then u.processUnicodeByte readIter
  else if u.pendingEscapedSymbol then u.processSpecialByte currByte
  else if currByte = 92 then
    .ok { u with pendingEscapedSymbol := true }
  else .ok (u.processRegularByte currByte)

/-- `terminate`: the end-of-input checks of `doUnescaping`. -/
def terminate (u : bytesUnescaper) : Except UnescapeError Unit :=
  if u.pendingSecondUTF16SeqPoint then
    .error (.missingSecondSeqPoint u.firstUTF16SeqPoint)
  else if u.pendingEscapedSymbol || u.pendingUnicodeBytes > 0 then
    .error .incompleteEscapeSequence
  else .ok ()

/-- The `doUnescaping` loop: run `n` iterations starting at read position
`readIter` (`doUnescaping` itself runs it with `readIter = 0` and
`n = input.length`, so each iteration reads a position inside the input). -/
def loop (u : bytesUnescaper) (readIter : Nat) : Nat →
    Except UnescapeError bytesUnescaper
  | 0 => .ok u
  | n + 1 =>
    match u.step readIter with
    | .error e => .error e
    | .ok u' => loop u' (readIter + 1) n

end bytesUnescaper

/-- The initial `bytesUnescaper` built by `UnescapeBytesInplace`. -/
def initUnescaper (input : List Nat) : bytesUnescaper :=
  { writeIter := 0, input := input, pendingEscapedSymbol := false,
    pendingUnicodeBytes := 0, pendingSecondUTF16SeqPoint := false,
    firstUTF16SeqPoint := 0 }

/-- `doUnescaping` without the final shrink: the full final buffer and the
number of bytes written (the Go function returns `input[:writeIter]`, a
view of this). -/
def doUnescapingFull (input : List Nat) :
    Except UnescapeError bytesUnescaper :=
  let u := initUnescaper input
  match u.loop 0 input.length with
  | .error e => .error e
  | .ok u' =>
    match u'.terminate with
    | .error e => .error e
    | .ok _ => .ok u'

/-- `UnescapeBytesInplace` from token.go: rewrite the escaped JSON string
body in place and return the shrunk prefix actually written. -/
def UnescapeBytesInplace (input : List Nat) :
    Except UnescapeError (List Nat) :=
  match doUnescapingFull input with
  | .error e => .error e
  | .ok u => .ok (u.input.take u.writeIter)

/-! ## Basic lemmas about the unescaper -/

theorem listWrite_length (bs : List Nat) :
    ∀ (l : List Nat) (i : Nat), (listWrite l i bs).length = l.length := by
  induction bs with
  | nil => intro l i; rfl
  | cons b bs ih =>
    intro l i
    simp only [listWrite, ih, List.length_set]

theorem utf8EncodeRune_length_le (r : Nat) : (utf8EncodeRune r).length ≤ 4 := by
  unfold utf8EncodeRune
  split
  · simp
  · split
    · simp
    · split
      · simp
      · split <;> simp

theorem List.set_getD_self (l : List Nat) : ∀ (i : Nat), l.set i (l.getD i 0) = l := by
  induction l with
  | nil => intro i; rfl
  | cons a l ih =>
    intro i
    cases i with
    | zero => simp
    | succ i =>
      rw [List.getD_cons_succ, List.set_cons_succ, ih i]

namespace bytesUnescaper

/-- The number of input bytes the unescaper has consumed for the escape
sequence it is currently in the middle of.  The write cursor lags the read
cursor by at least this much. -/
def debt (u : bytesUnescaper) : Nat :=
  if u.pendingUnicodeBytes > 0 then 6 - u.pendingUnicodeBytes
  else if u.pendingEscapedSymbol then 1 else 0

/-- The safety invariant of the in-place rewrite at read position `i`. -/
def Inv (N : Nat) (u : bytesUnescaper) (i : Nat) : Prop :=
  u.input.length = N ∧ u.pendingUnicodeBytes ≤ 4 ∧ u.writeIter + u.debt ≤ i

theorem Inv.step {N : Nat} {u : bytesUnescaper} {i : Nat} {u' : bytesUnescaper}
    (h : Inv N u i) (hs : u.step i = .ok u') : Inv N u' (i + 1) := by
  obtain ⟨hlen, hple, hwd⟩ := h
  unfold bytesUnescaper.step at hs
  by_cases hp : u.pendingUnicodeBytes > 0
  · rw [if_pos hp] at hs
    unfold processUnicodeByte at hs
    have hd : u.debt = 6 - u.pendingUnicodeBytes := by
      unfold debt; rw [if_pos hp]
    rw [hd] at hwd
    by_cases hp1 : u.pendingUnicodeBytes - 1 ≠ 0
    · rw [if_pos hp1] at hs
      cases hs
      refine ⟨hlen, by dsimp only; omega, ?_⟩
      unfold debt
      dsimp only
      rw [if_pos (by omega : u.pendingUnicodeBytes - 1 > 0)]
      omega
    · rw [if_neg hp1] at hs
      have hp0 : u.pendingUnicodeBytes = 1 := by omega
      cases hhex : HexBytesToUint (utf16SequenceAt u.input i) with
      | none => rw [hhex] at hs; cases hs
      | some v =>
        rw [hhex] at hs
        simp only at hs
        split at hs
        · cases hs
          refine ⟨hlen, by dsimp only; omega, ?_⟩
          unfold debt
          dsimp only
          rw [if_neg (by omega)]
          split <;> omega
        · split at hs
          · split at hs
            · cases hs
            · cases hs
              refine ⟨by simpa [listWrite_length] using hlen, by dsimp only; omega, ?_⟩
              have hb := utf8EncodeRune_length_le
                (utf16DecodeRune u.firstUTF16SeqPoint v)
              unfold debt
              dsimp only
              rw [if_neg (by omega)]
              split <;> omega
          · cases hs
            refine ⟨by simpa [listWrite_length] using hlen, by dsimp only; omega, ?_⟩
            have hb := utf8EncodeRune_length_le v
            unfold debt
            dsimp only
            rw [if_neg (by omega)]
            split <;> omega
  · rw [if_neg hp] at hs
    have hp0 : u.pendingUnicodeBytes = 0 := by omega
    by_cases he : u.pendingEscapedSymbol
    · rw [he, if_pos rfl] at hs
      have hd : u.debt = 1 := by unfold debt; rw [if_neg hp, if_pos he]
      rw [hd] at hwd
      unfold processSpecialByte at hs
      dsimp only at hs
      split at hs
      · cases hs
        refine ⟨hlen, by dsimp only; omega, ?_⟩
        unfold debt
        dsimp only
        rw [if_pos (by omega : (4:Nat) > 0)]
        omega
      · split at hs
        · cases hs
        · split at hs
          · cases hs
          · cases hs
            refine ⟨by simpa using hlen, by dsimp only; omega, ?_⟩
            unfold debt
            dsimp only
            rw [if_neg (by omega), if_neg (by simp)]
            omega
    · rw [Bool.not_eq_true] at he
      rw [he] at hs
      simp only [Bool.false_eq_true, if_false] at hs
      have hd : u.debt = 0 := by
        unfold debt
        rw [if_neg hp, if_neg (by simp [he])]
      rw [hd] at hwd
      split at hs
      · cases hs
        refine ⟨hlen, by dsimp only; omega, ?_⟩
        unfold debt
        dsimp only
        rw [if_neg (by omega), if_pos rfl]
        omega
      · cases hs
        unfold processRegularByte
        refine ⟨by simpa using hlen, by dsimp only; omega, ?_⟩
        unfold debt
        dsimp only
        rw [if_neg (by omega), if_neg (by simp [he])]
        omega

theorem Inv.loop {N : Nat} :
    ∀ (n : Nat) (u : bytesUnescaper) (i : Nat) (u' : bytesUnescaper),
    Inv N u i → bytesUnescaper.loop u i n = .ok u' → Inv N u' (i + n) := by
  intro n
  induction n with
  | zero =>
    intro u i u' h hl
    cases hl
    simpa using h
  | succ n ih =>
    intro u i u' h hl
    unfold bytesUnescaper.loop at hl
    cases hs : u.step i with
    | error e => rw [hs] at hl; cases hl
    | ok u1 =>
      rw [hs] at hl
      simp only at hl
      have h1 := h.step hs
      have := ih u1 (i + 1) u' h1 hl
      simpa [Nat.add_assoc, Nat.add_comm 1 n] using this

end bytesUnescaper

/-- Shared invariant corollary: after any number of loop iterations from the
initial state, the write cursor is at most the read position and the buffer
length is unchanged. -/
theorem unescLoop_invariant (input : List Nat) (k : Nat) (u' : bytesUnescaper)
    (hl : bytesUnescaper.loop (initUnescaper input) 0 k = .ok u') :
    u'.writeIter ≤ k ∧ u'.input.length = input.length := by
  have h0 : bytesUnescaper.Inv input.length (initUnescaper input) 0 := by
    refine ⟨rfl, by simp [initUnescaper], ?_⟩
    simp [initUnescaper, bytesUnescaper.debt]
  have h := bytesUnescaper.Inv.loop k (initUnescaper input) 0 u' h0 hl
  obtain ⟨hlen, -, hw⟩ := h
  exact ⟨by omega, hlen⟩

/-- C6: whenever `UnescapeBytesInplace` succeeds, the returned slice length
is at most the input length, and at every step of the `doUnescaping` loop
the write cursor is at most the read cursor, so every in-place write lands
inside the already-read prefix of the same (length-preserved) buffer. -/
theorem C6_inplace_write_safety :
    (∀ (input : List Nat) (k : Nat) (u' : bytesUnescaper),
        bytesUnescaper.loop (initUnescaper input) 0 k = .ok u' →
        u'.writeIter ≤ k ∧ u'.input.length = input.length) ∧
    (∀ (input out : List Nat),
        UnescapeBytesInplace input = .ok out → out.length ≤ input.length) := by
  refine ⟨unescLoop_invariant, ?_⟩
  intro input out h
  unfold UnescapeBytesInplace doUnescapingFull at h
  dsimp only at h
  cases hl : bytesUnescaper.loop (initUnescaper input) 0 input.length with
  | error e => rw [hl] at h; cases h
  | ok u =>
    rw [hl] at h
    dsimp only at h
    cases ht : u.terminate with
    | error e => rw [ht] at h; cases h
    | ok _ =>
      rw [ht] at h
      cases h
      have hlen := (unescLoop_invariant input input.length u hl).2
      rw [List.length_take, hlen]
      exact Nat.min_le_right _ _

theorem C6_inplace_write_safety_witness :
    ((2 : Nat) ≤ 3 ∧ ([97, 10, 110] : List Nat).length = 3) ∧
      ([97, 47] : List Nat).length ≤ 3 := by
  refine ⟨?_, ?_⟩
  · exact C6_inplace_write_safety.1 [97, 92, 110] 3
      ⟨2, [97, 10, 110], false, 0, false, 0⟩ (by decide)
  · exact C6_inplace_write_safety.2 [97, 92, 47] [97, 47] (by decide)

/-- Loop run over an escape-free buffer: every byte is rewritten onto
itself and both cursors advance in lock step. -/
theorem unescLoop_no_backslash :
    ∀ (n i : Nat) (input : List Nat), (∀ b ∈ input, b ≠ 92) →
    i + n ≤ input.length →
    bytesUnescaper.loop ⟨i, input, false, 0, false, 0⟩ i n =
      .ok ⟨i + n, input, false, 0, false, 0⟩ := by
  intro n
  induction n with
  | zero => intro i input _ _; rfl
  | succ n ih =>
    intro i input hnb hle
    have hi : i < input.length := by omega
    have hc : input.getD i 0 ≠ 92 := by
      rw [List.getD_eq_getElem input 0 hi]
      exact hnb _ (List.getElem_mem hi)
    have hstep : bytesUnescaper.step ⟨i, input, false, 0, false, 0⟩ i =
        .ok ⟨i + 1, input, false, 0, false, 0⟩ := by
      unfold bytesUnescaper.step
      dsimp only
      rw [if_neg (by omega), if_neg (by simp), if_neg hc]
      unfold bytesUnescaper.processRegularByte
      dsimp only
      rw [List.set_getD_self input i]
    unfold bytesUnescaper.loop
    rw [hstep]
    dsimp only
    rw [ih (i + 1) input hnb (by omega)]
    have : i + 1 + n = i + (n + 1) := by omega
    rw [this]

/-- C7: on any input containing no backslash, `UnescapeBytesInplace`
succeeds, leaves every byte unchanged and returns the full-length input. -/
theorem C7_escape_free_identity (input : List Nat)
    (h : ∀ b ∈ input, b ≠ 92) : UnescapeBytesInplace input = .ok input := by
  unfold UnescapeBytesInplace doUnescapingFull initUnescaper
  dsimp only
  rw [unescLoop_no_backslash input.length 0 input h (by omega)]
  dsimp only
  rw [show (bytesUnescaper.terminate ⟨0 + input.length, input, false, 0, false, 0⟩) =
      .ok () from rfl]
  dsimp only
  rw [Nat.zero_add, List.take_length]

theorem C7_escape_free_identity_witness :
    UnescapeBytesInplace [104, 105] = .ok [104, 105] :=
  C7_escape_free_identity [104, 105] (by decide)

/-- C8 counterexample: a non-escape byte (`z`) between a high-surrogate
`\uXXXX` escape and the low-surrogate `\uXXXX` escape does not make
`UnescapeBytesInplace` fail: the pair is still combined, refuting the claim
that the low surrogate must follow with no intervening characters. -/
theorem C8_counterexample :
    UnescapeBytesInplace [92, 117, 68, 56, 51, 68, 122, 92, 117, 68, 67, 65, 57] =
      .ok [122, 240, 159, 146, 169] := by decide

/-- C8 amended: while a surrogate code unit is pending, an escape other
than `\u`/`\U` errors immediately and end of input errors; a non-escape
byte, however, is copied through with the pending surrogate retained. -/
theorem C8_amended_pending_surrogate :
    (∀ (u : bytesUnescaper) (c : Nat), u.pendingSecondUTF16SeqPoint = true →
      c ≠ 117 → c ≠ 85 →
      u.processSpecialByte c =
        .error (.missingSecondSeqPoint u.firstUTF16SeqPoint)) ∧
    (∀ u : bytesUnescaper, u.pendingSecondUTF16SeqPoint = true →
      u.terminate = .error (.missingSecondSeqPoint u.firstUTF16SeqPoint)) ∧
    (∀ (u : bytesUnescaper) (i : Nat), u.pendingUnicodeBytes = 0 →
      u.pendingEscapedSymbol = false → u.input.getD i 0 ≠ 92 →
      u.step i = .ok { u with input := u.input.set u.writeIter (u.input.getD i 0),
                              writeIter := u.writeIter + 1 }) ∧
    UnescapeBytesInplace [92, 117, 68, 56, 51, 68, 32, 119, 111, 114, 108, 100] =
      .error (.missingSecondSeqPoint 0xD83D) := by
  refine ⟨?_, ?_, ?_, by decide⟩
  · intro u c hp hc hc'
    unfold bytesUnescaper.processSpecialByte
    dsimp only
    rw [if_neg (by simp [hc, hc']), if_pos]
    simpa using hp
  · intro u hp
    unfold bytesUnescaper.terminate
    rw [if_pos (by simpa using hp)]
  · intro u i hpu hpe hc
    unfold bytesUnescaper.step
    rw [if_neg (by omega), if_neg (by simp [hpe]), if_neg hc]
    rfl

/-- One unfolding of the `doUnescaping` loop when the current step
succeeds. -/
theorem loop_step_ok {u u' : bytesUnescaper} {i : Nat} (n : Nat)
    (h : u.step i = .ok u') :
    bytesUnescaper.loop u i (n + 1) = bytesUnescaper.loop u' (i + 1) n := by
  conv_lhs => unfold bytesUnescaper.loop
  rw [h]

/-- C5: a `\uXXXX` escape whose four hex digits decode to a high surrogate
`h`, immediately followed by a `\uXXXX` escape decoding to a low surrogate
`l`, unescapes to the UTF-8 encoding of
`0x10000 + (h - 0xD800) * 0x400 + (l - 0xDC00)`. -/
theorem C5_surrogate_pair_combination
    (h0 h1 h2 h3 l0 l1 l2 l3 h l : Nat)
    (hh : HexBytesToUint [h0, h1, h2, h3] = some h)
    (hl : HexBytesToUint [l0, l1, l2, l3] = some l)
    (hh1 : 0xD800 ≤ h) (hh2 : h < 0xDC00)
    (hl1 : 0xDC00 ≤ l) (hl2 : l < 0xE000) :
    UnescapeBytesInplace [92, 117, h0, h1, h2, h3, 92, 117, l0, l1, l2, l3] =
      .ok (utf8EncodeRune (0x10000 + (h - 0xD800) * 0x400 + (l - 0xDC00))) := by
  set inp : List Nat := [92, 117, h0, h1, h2, h3, 92, 117, l0, l1, l2, l3] with hinp
  set v : Nat := 0x10000 + (h - 0xD800) * 0x400 + (l - 0xDC00) with hv
  have hsurh : IsSurrogate h = true := by
    simp only [IsSurrogate, Bool.and_eq_true, decide_eq_true_eq]
    omega
  have hdec : utf16DecodeRune h l = v := by
    unfold utf16DecodeRune
    rw [if_pos (by simp only [Bool.and_eq_true, decide_eq_true_eq]; omega)]
  have hvrange : 0x10000 ≤ v ∧ v ≤ 0x10FFFF := by
    constructor <;> omega
  have henc : utf8EncodeRune v =
      [0xF0 + v / 0x40000, 0x80 + (v / 0x1000) % 0x40,
       0x80 + (v / 0x40) % 0x40, 0x80 + v % 0x40] := by
    unfold utf8EncodeRune
    rw [if_neg (by omega), if_neg (by omega),
      if_neg (by simp only [IsSurrogate, Bool.or_eq_true, Bool.and_eq_true,
        decide_eq_true_eq]; omega),
      if_neg (by omega)]
  have hlen4 : (utf8EncodeRune v).length = 4 := by rw [henc]; rfl
  have hseqh : bytesUnescaper.utf16SequenceAt inp 5 = [h0, h1, h2, h3] := by
    simp [bytesUnescaper.utf16SequenceAt, hinp]
  have hseql : bytesUnescaper.utf16SequenceAt inp 11 = [l0, l1, l2, l3] := by
    simp [bytesUnescaper.utf16SequenceAt, hinp]
  have e0 : bytesUnescaper.step ⟨0, inp, false, 0, false, 0⟩ 0 =
      .ok ⟨0, inp, true, 0, false, 0⟩ := by
    simp [bytesUnescaper.step, hinp]
  have e1 : bytesUnescaper.step ⟨0, inp, true, 0, false, 0⟩ 1 =
      .ok ⟨0, inp, false, 4, false, 0⟩ := by
    simp [bytesUnescaper.step, bytesUnescaper.processSpecialByte, hinp]
  have e2 : bytesUnescaper.step ⟨0, inp, false, 4, false, 0⟩ 2 =
      .ok ⟨0, inp, false, 3, false, 0⟩ := by
    simp [bytesUnescaper.step, bytesUnescaper.processUnicodeByte]
  have e3 : bytesUnescaper.step ⟨0, inp, false, 3, false, 0⟩ 3 =
      .ok ⟨0, inp, false, 2, false, 0⟩ := by
    simp [bytesUnescaper.step, bytesUnescaper.processUnicodeByte]
  have e4 : bytesUnescaper.step ⟨0, inp, false, 2, false, 0⟩ 4 =
      .ok ⟨0, inp, false, 1, false, 0⟩ := by
    simp [bytesUnescaper.step, bytesUnescaper.processUnicodeByte]
  have e5 : bytesUnescaper.step ⟨0, inp, false, 1, false, 0⟩ 5 =
      .ok ⟨0, inp, false, 0, true, h⟩ := by
    unfold bytesUnescaper.step bytesUnescaper.processUnicodeByte
    dsimp only
    rw [if_pos (by omega), if_neg (by omega), hseqh, hh]
    dsimp only
    rw [if_pos (by simp [hsurh])]
  have e6 : bytesUnescaper.step ⟨0, inp, false, 0, true, h⟩ 6 =
      .ok ⟨0, inp, true, 0, true, h⟩ := by
    simp [bytesUnescaper.step, hinp]
  have e7 : bytesUnescaper.step ⟨0, inp, true, 0, true, h⟩ 7 =
      .ok ⟨0, inp, false, 4, true, h⟩ := by
    simp [bytesUnescaper.step, bytesUnescaper.processSpecialByte, hinp]
  have e8 : bytesUnescaper.step ⟨0, inp, false, 4, true, h⟩ 8 =
      .ok ⟨0, inp, false, 3, true, h⟩ := by
    simp [bytesUnescaper.step, bytesUnescaper.processUnicodeByte]
  have e9 : bytesUnescaper.step ⟨0, inp, false, 3, true, h⟩ 9 =
      .ok ⟨0, inp, false, 2, true, h⟩ := by
    simp [bytesUnescaper.step, bytesUnescaper.processUnicodeByte]
  have e10 : bytesUnescaper.step ⟨0, inp, false, 2, true, h⟩ 10 =
      .ok ⟨0, inp, false, 1, true, h⟩ := by
    simp [bytesUnescaper.step, bytesUnescaper.processUnicodeByte]
  have e11 : bytesUnescaper.step ⟨0, inp, false, 1, true, h⟩ 11 =
      .ok ⟨4, listWrite inp 0 (utf8EncodeRune v), false, 0, false, h⟩ := by
    unfold bytesUnescaper.step bytesUnescaper.processUnicodeByte
    dsimp only
    rw [if_pos (by omega), if_neg (by omega), hseql, hl]
    dsimp only
    rw [if_neg (by simp), if_pos rfl, hdec, if_neg (by omega), hlen4]
  have hloop : bytesUnescaper.loop (initUnescaper inp) 0 12 =
      .ok ⟨4, listWrite inp 0 (utf8EncodeRune v), false, 0, false, h⟩ := by
    rw [show initUnescaper inp = ⟨0, inp, false, 0, false, 0⟩ from rfl]
    rw [loop_step_ok 11 e0, loop_step_ok 10 e1, loop_step_ok 9 e2,
      loop_step_ok 8 e3, loop_step_ok 7 e4, loop_step_ok 6 e5,
      loop_step_ok 5 e6, loop_step_ok 4 e7, loop_step_ok 3 e8,
      loop_step_ok 2 e9, loop_step_ok 1 e10, loop_step_ok 0 e11]
    rfl
  have hlen12 : inp.length = 12 := by rw [hinp]; rfl
  unfold UnescapeBytesInplace doUnescapingFull
  dsimp only
  rw [hlen12, hloop]
  dsimp only
  rw [show (bytesUnescaper.terminate
      ⟨4, listWrite inp 0 (utf8EncodeRune v), false, 0, false, h⟩) =
      .ok () from rfl]
  dsimp only
  rw [henc, hinp]
  simp [listWrite]

theorem C5_surrogate_pair_combination_witness :
    UnescapeBytesInplace [92, 117, 68, 56, 51, 68, 92, 117, 68, 67, 65, 57] =
      .ok [240, 159, 146, 169] := by
  have := C5_surrogate_pair_combination 68 56 51 68 68 67 65 57
    0xD83D 0xDCA9 (by decide) (by decide) (by decide) (by decide)
    (by decide) (by decide)
  simpa using this

theorem C8_amended_pending_surrogate_witness :
    (bytesUnescaper.processSpecialByte ⟨0, [119], true, 0, true, 0xD83D⟩ 119 =
      .error (.missingSecondSeqPoint 0xD83D)) ∧
    (bytesUnescaper.terminate ⟨0, [119], false, 0, true, 0xD83D⟩ =
      .error (.missingSecondSeqPoint 0xD83D)) ∧
    (bytesUnescaper.step ⟨0, [119], false, 0, true, 0xD83D⟩ 0 =
      .ok ⟨1, [119], false, 0, true, 0xD83D⟩) := by
  refine ⟨?_, ?_, ?_⟩
  · exact C8_amended_pending_surrogate.1 ⟨0, [119], true, 0, true, 0xD83D⟩ 119
      rfl (by decide) (by decide)
  · exact C8_amended_pending_surrogate.2.1 ⟨0, [119], false, 0, true, 0xD83D⟩ rfl
  · exact C8_amended_pending_surrogate.2.2.1 ⟨0, [119], false, 0, true, 0xD83D⟩ 0
      rfl rfl (by decide)

/-! ## Token types and the generic token (token.go / token_generic.go) -/

/-- `TokenType` from token.go. -/
inductive TokenType where
  | LexerTokenTypeDelim
  | LexerTokenTypeString
  | LexerTokenTypeNumber
  | LexerTokenTypeBool
  | LexerTokenTypeNull
  deriving DecidableEq, Repr

/-- `TokenGeneric` from token_generic.go.  The Go struct stores
`number float64`; here `number` holds the raw bytes of the numeric literal
the float was parsed from (see the header note on `float64`). -/
structure TokenGeneric where
  t : TokenType
  boolean : Bool := false
  str : List Nat := []
  number : List Nat := []
  delim : Nat := 0
  deriving DecidableEq, Repr

def newTokenGenericFromString (s : List Nat) : TokenGeneric :=
  { t := .LexerTokenTypeString, str := s }

def newTokenGenericFromNumber (f : List Nat) : TokenGeneric :=
  { t := .LexerTokenTypeNumber, number := f }

def newTokenGenericFromBool (b : Bool) : TokenGeneric :=
  { t := .LexerTokenTypeBool, boolean := b }

def newTokenGenericFromNull : TokenGeneric :=
  { t := .LexerTokenTypeNull }

def newTokenGenericFromDelim (d : Nat) : TokenGeneric :=
  { t := .LexerTokenTypeDelim, delim := d }

/-! ## The syntax accepted by `strconv.ParseFloat`

`currTokenAsNumber` calls `strconv.ParseFloat(str, 64)` and only the
success/failure of that call matters to the lexer (the parsed value lives
in the unmodelled `float64` payload).  `goParseFloatAccepts` models its
acceptance: an optional sign, then `inf`/`infinity`/`nan` (case-insensitive)
or a decimal mantissa (digits, optionally with one dot; at least one digit)
with an optional `e`/`E` exponent (optional sign, at least one digit).
Go additionally accepts hexadecimal floats and underscore digit grouping;
no byte sequence the claims exercise uses either form. -/

/-- Length of the maximal leading run of decimal digits, and the rest. -/
def scanDigits : List Nat → Nat × List Nat
  | [] => (0, [])
  | c :: rest =>
    if isDigitByte c then
      let (n, r) := scanDigits rest
      (n + 1, r)
    else (0, c :: rest)

/-- Drop one leading `+`/`-` sign if present. -/
def stripSign : List Nat → List Nat
  | [] => []
  | c :: rest => if c = 43 || c = 45 then rest else c :: rest

/-- `strconv`'s `special`: `inf`, `infinity` (optionally signed) and `nan`,
case-insensitively. -/
def isSpecialFloat (s : List Nat) : Bool :=
  match s with
  | [] => false
  | c :: rest =>
    if c = 43 || c = 45 then
      rest.map toLowerByte = [105, 110, 102] ||
      rest.map toLowerByte = [105, 110, 102, 105, 110, 105, 116, 121]
    else
      s.map toLowerByte = [110, 97, 110] ||
      s.map toLowerByte = [105, 110, 102] ||
      s.map toLowerByte = [105, 110, 102, 105, 110, 105, 116, 121]

/-- Whether `strconv.ParseFloat(s, 64)` succeeds (see section comment). -/
def goParseFloatAccepts (s : List Nat) : Bool :=
  if s.isEmpty then false
  else if isSpecialFloat s then true
  else
    let s1 := stripSign s
    let (n1, r1) := scanDigits s1
    let (n2, r2) :=
      match r1 with
      | 46 :: rest => scanDigits rest
      | _ => (0, r1)
    if n1 + n2 = 0 then false
    else
      match r2 with
      | [] => true
      | e :: rest =>
        if e = 101 || e = 69 then
          let rest1 := stripSign rest
          let (n3, r3) := scanDigits rest1
          decide (0 < n3) && r3.isEmpty
        else false

/-! ## The state-machine lexer (`JSONLexer`, lexer.go of the current tree) -/

/-- `lexerState` from lexer.go. -/
inductive lexerState where
  | stateLexerIdle
  | stateLexerSkipping
  | stateLexerString
  | stateLexerPendingEscapedSymbol
  | stateLexerUnicodeRune
  | stateLexerNumber
  | stateLexerBool
  | stateLexerNull
  deriving DecidableEq, Repr

/-- Errors `Token`/`TokenFast` can return.  `eof` models `io.EOF` (the
distinguished clean end-of-stream value); `outOfFuel` is an artefact of the
fuelled loop model and never occurs for the fuel `TokenFast` supplies on
reachable states. -/
inductive LexError where
  | eof
  | unexpectedEOF
  | invalidEscape (c : Nat)
  | invalidHexDigit (c : Nat)
  | invalidLiteralNull (c : Nat)
  | invalidLiteralBool (c : Nat)
  | unescape (e : UnescapeError)
  | invalidNumber (raw : List Nat)
  | notABool (raw : List Nat)
  | outOfFuel
  deriving DecidableEq, Repr

/-- The `JSONLexer` state from lexer.go.  The `io.Reader` is modelled by
`inputRest`, the bytes it has not yet delivered: `io.ReadFull` on it reads
`min` of the requested length and `inputRest.length` bytes and never fails
(a `strings.Reader`-style source), reporting EOF exactly when it delivers
fewer bytes than requested. -/
structure JSONLexer where
  inputRest : List Nat
  readingFinished : Bool
  state : lexerState
  buf : List Nat
  currPos : Nat
  unicodeRuneBytesCounter : Nat
  currTokenStart : Nat
  currTokenEnd : Nat
  currTokenType : TokenType
  newTokenFound : Bool
  skipDelims : Bool
  deriving DecidableEq, Repr

/-- `NewJSONLexer`: zero-valued lexer with a 4096-byte buffer over the
given source. -/
def NewJSONLexer (input : List Nat) : JSONLexer :=
  { inputRest := input, readingFinished := false, state := .stateLexerIdle,
    buf := List.replicate 4096 0, currPos := 0, unicodeRuneBytesCounter := 0,
    currTokenStart := 0, currTokenEnd := 0,
    currTokenType := .LexerTokenTypeDelim, newTokenFound := false,
    skipDelims := false }

/-- `SetBufSize`: replace the buffer with a fresh zeroed one. -/
def SetBufSize (l : JSONLexer) (bufSize : Nat) : JSONLexer :=
  { l with buf := List.replicate bufSize 0 }

/-- `SetSkipDelims`: note the source ignores its argument and always stores
`true`. -/
def SetSkipDelims (l : JSONLexer) (mustSkip : Bool) : JSONLexer :=
  { l with skipDelims := true }

namespace JSONLexer

/-- The byte list `"null"` expected by `processStateNull`. -/
def nullLiteral : List Nat := [110, 117, 108, 108]

/-- The byte list `"true"`. -/
def trueLiteral : List Nat := [116, 114, 117, 101]

/-- The byte list `"false"`. -/
def falseLiteral : List Nat := [102, 97, 108, 115, 101]

/-- `processStateSkipping`: in the resting state a quote, number-opening
byte, or first letter of a literal starts a token; every other byte —
whitespace, delimiters and anything else — is skipped. -/
def processStateSkipping (l : JSONLexer) (c : Nat) :
    Except LexError JSONLexer :=
  if c = 34 then
    .ok { l with state := .stateLexerString,
                 currTokenType := .LexerTokenTypeString,
                 currTokenStart := l.currPos }
  else if CanAppearInNumber c then
    .ok { l with state := .stateLexerNumber,
                 currTokenType := .LexerTokenTypeNumber,
                 currTokenStart := l.currPos }
  else if c = 116 || c = 84 || c = 102 || c = 70 then
    .ok { l with state := .stateLexerBool,
                 currTokenType := .LexerTokenTypeBool,
                 currTokenStart := l.currPos }
  else if c = 110 || c = 78 then
    .ok { l with state := .stateLexerNull,
                 currTokenType := .LexerTokenTypeNull,
                 currTokenStart := l.currPos }
  else
    -- skipping
    .ok l

/-- `processStateString`. -/
def processStateString (l : JSONLexer) (c : Nat) :
    Except LexError JSONLexer :=
  if c = 34 then
    .ok { l with state := .stateLexerSkipping, currTokenEnd := l.currPos,
                 newTokenFound := true }
  else if c = 92 then
    .ok { l with state := .stateLexerPendingEscapedSymbol }
  else
    -- accumulating string
    .ok l

/-- `processStatePendingEscapedSymbol`. -/
def processStatePendingEscapedSymbol (l : JSONLexer) (c : Nat) :
    Except LexError JSONLexer :=
  if !IsValidEscapedSymbol c then .error (.invalidEscape c)
  else if c = 117 || c = 85 then
    .ok { l with state := .stateLexerUnicodeRune,
                 unicodeRuneBytesCounter := 0 }
  else .ok { l with state := .stateLexerString }

/-- `processStateUnicodeRune`. -/
def processStateUnicodeRune (l : JSONLexer) (c : Nat) :
    Except LexError JSONLexer :=
  if !IsHexDigit c then .error (.invalidHexDigit c)
  else
    let counter := l.unicodeRuneBytesCounter + 1
    if counter = 4 then
      .ok { l with unicodeRuneBytesCounter := counter,
                   state := .stateLexerString }
    else .ok { l with unicodeRuneBytesCounter := counter }

/-- `processStateNumber`: digits and dots accumulate, a delimiter or space
byte completes the token, and any other byte falls through the `switch`
with no effect (it is silently absorbed into the number token). -/
def processStateNumber (l : JSONLexer) (c : Nat) :
    Except LexError JSONLexer :=
  if isDigitByte c then .ok l
  else if c = 46 then .ok l
  else if IsDelim c || isSpaceByte c then
    .ok { l with state := .stateLexerSkipping, currTokenEnd := l.currPos,
                 newTokenFound := true }
  else .ok l

/-- `processStateNull`.  (Go indexes `"null"[currPositionInToken]`, which is
always in range on reachable states; the model uses `getD`.) -/
def processStateNull (l : JSONLexer) (c : Nat) :
    Except LexError JSONLexer :=
  let currPositionInToken := l.currPos - l.currTokenStart
  if currPositionInToken = nullLiteral.length then
    .ok { l with state := .stateLexerSkipping, currTokenEnd := l.currPos,
                 newTokenFound := true }
  else
    let expectedLiteral := nullLiteral.getD currPositionInToken 0
    if toLowerByte c ≠ expectedLiteral then .error (.invalidLiteralNull c)
    else .ok l

/-- `processStateBool`: the first byte of the token selects `true` or
`false` as the expected literal. -/
def processStateBool (l : JSONLexer) (c : Nat) :
    Except LexError JSONLexer :=
  let firstCharOfToken := toLowerByte (l.buf.getD l.currTokenStart 0)
  let currPositionInToken := l.currPos - l.currTokenStart
  let expectedToken : List Nat :=
    if firstCharOfToken = 116 then JSONLexer.trueLiteral
    else if firstCharOfToken = 102 then falseLiteral
    else []
  if currPositionInToken = expectedToken.length then
    .ok { l with state := .stateLexerSkipping, currTokenEnd := l.currPos,
                 newTokenFound := true }
  else
    let expectedLiteral := expectedToken.getD currPositionInToken 0
    if toLowerByte c ≠ expectedLiteral then .error (.invalidLiteralBool c)
    else .ok l

/-- `feed`: dispatch one byte to the current state's handler (the `Idle`
state has no case in the Go `switch` and falls through to `nil`). -/
def feed (l : JSONLexer) (c : Nat) : Except LexError JSONLexer :=
  match l.state with
  | .stateLexerSkipping => l.processStateSkipping c
  | .stateLexerString => l.processStateString c
  | .stateLexerPendingEscapedSymbol => l.processStatePendingEscapedSymbol c
  | .stateLexerUnicodeRune => l.processStateUnicodeRune c
  | .stateLexerNumber => l.processStateNumber c
  | .stateLexerBool => l.processStateBool c
  | .stateLexerNull => l.processStateNull c
  | .stateLexerIdle => .ok l

/-- `currTokenAsUnsafeString`: unescape `buf[currTokenStart+1 :
currTokenEnd]` in place and return the written prefix; the second component
is the lexer with that buffer region rewritten, modelling the in-place
mutation. -/
def currTokenAsUnsafeString (l : JSONLexer) :
    Except LexError (List Nat × JSONLexer) :=
  let subStr := (l.buf.take l.currTokenEnd).drop (l.currTokenStart + 1)
  match doUnescapingFull subStr with
  | .error e => .error (.unescape e)
  | .ok u =>
    .ok (u.input.take u.writeIter,
      { l with buf := (l.buf.take (l.currTokenStart + 1)) ++ u.input ++
                      l.buf.drop l.currTokenEnd })

/-- `currTokenAsNumber`: `strconv.ParseFloat` of the raw token bytes; the
model keeps the raw bytes as the value. -/
def currTokenAsNumber (l : JSONLexer) : Except LexError (List Nat) :=
  let str := (l.buf.take l.currTokenEnd).drop l.currTokenStart
  if goParseFloatAccepts str then .ok str else .error (.invalidNumber str)

/-- `currTokenAsBool`. -/
def currTokenAsBool (l : JSONLexer) : Except LexError Bool :=
  if toLowerByte (l.buf.getD l.currTokenStart 0) = 116 then .ok true
  else if toLowerByte (l.buf.getD l.currTokenStart 0) = 102 then .ok false
  else .error (.notABool ((l.buf.take l.currTokenEnd).drop l.currTokenStart))

/-- `currToken`: materialise the completed token. -/
def currToken (l : JSONLexer) : Except LexError (TokenGeneric × JSONLexer) :=
  match l.currTokenType with
  | .LexerTokenTypeDelim =>
    .ok (newTokenGenericFromDelim (l.buf.getD l.currTokenStart 0), l)
  | .LexerTokenTypeString =>
    match l.currTokenAsUnsafeString with
    | .error e => .error e
    | .ok (s, l') => .ok (newTokenGenericFromString s, l')
  | .LexerTokenTypeNumber =>
    match l.currTokenAsNumber with
    | .error e => .error e
    | .ok n => .ok (newTokenGenericFromNumber n, l)
  | .LexerTokenTypeBool =>
    match l.currTokenAsBool with
    | .error e => .error e
    | .ok b => .ok (newTokenGenericFromBool b, l)
  | .LexerTokenTypeNull => .ok (newTokenGenericFromNull, l)

/-- `fetchNewData`: preserve the in-progress token prefix (growing the
buffer when `currPos - currTokenStart ≥ currTokenStart`), then fill the
remainder of the buffer from the source; a short read marks the source
finished and shrinks the buffer to the bytes actually present. -/
def fetchNewData (l : JSONLexer) : JSONLexer :=
  let l1 :=
    if l.state ≠ .stateLexerSkipping ∧ l.state ≠ .stateLexerIdle then
      let currTokenBytesParsed := l.currPos - l.currTokenStart
      let dstBuf :=
        if currTokenBytesParsed ≥ l.currTokenStart then
          List.replicate (2 * l.buf.length) 0
        else l.buf
      let dstBuf := listWrite dstBuf 0 (l.buf.drop l.currTokenStart)
      { l with buf := dstBuf, currTokenStart := 0,
               currPos := currTokenBytesParsed }
    else { l with currPos := 0 }
  let want := l1.buf.length - l1.currPos
  let got := min want l1.inputRest.length
  let filled := listWrite l1.buf l1.currPos (l1.inputRest.take got)
  if got < want then
    { l1 with buf := filled.take (l1.currPos + got),
              inputRest := l1.inputRest.drop got, readingFinished := true }
  else
    { l1 with buf := filled, inputRest := l1.inputRest.drop got }

/-- `shutdown`: EOF in `Skipping` is the clean `io.EOF`; anywhere else it
is the "unexpected EOF" error. -/
def shutdown (l : JSONLexer) : LexError :=
  if l.state ≠ .stateLexerSkipping then .unexpectedEOF else .eof

/-- The `for` loop of `TokenFast`, with explicit fuel: refill (or shut
down) when the buffer is exhausted, otherwise feed the current byte,
advance, and stop once a completed token is found. -/
def tokenFastLoop : JSONLexer → Nat → Except LexError (TokenGeneric × JSONLexer)
  | _, 0 => .error .outOfFuel
  | l, fuel + 1 =>
    if l.currPos ≥ l.buf.length then
      if l.readingFinished then .error l.shutdown
      else tokenFastLoop l.fetchNewData fuel
    else
      match l.feed (l.buf.getD l.currPos 0) with
      | .error e => .error e
      | .ok l1 =>
        let l2 := { l1 with currPos := l1.currPos + 1 }
        if l2.newTokenFound then
          currToken { l2 with newTokenFound := false }
        else tokenFastLoop l2 fuel

/-- Fuel sufficient for one `TokenFast` call: a potential that every loop
iteration strictly decreases (each iteration either consumes a buffered
byte, moves source bytes into the buffer, or terminates). -/
def tokenCallFuel (l : JSONLexer) : Nat :=
  2 * l.inputRest.length + (l.buf.length - l.currPos) + 3

/-- `TokenFast`: perform the initial refill when idle, then run the loop. -/
def TokenFast (l : JSONLexer) : Except LexError (TokenGeneric × JSONLexer) :=
  let l :=
    if l.state = .stateLexerIdle then
      { l.fetchNewData with state := .stateLexerSkipping }
    else l
  tokenFastLoop l (tokenCallFuel l)

end JSONLexer

/-- The outcome of draining a lexer: clean EOF or a terminal error. -/
inductive LexOutcome where
  | eofOk
  | failed (e : LexError)
  deriving DecidableEq, Repr

/-- Drain the lexer with repeated `TokenFast` calls, collecting tokens
until `io.EOF` or an error (as the tests and the README usage loop do). -/
def lexTokensLoop : JSONLexer → Nat → List TokenGeneric →
    List TokenGeneric × LexOutcome
  | _, 0, acc => (acc.reverse, .failed .outOfFuel)
  | l, fuel + 1, acc =>
    match l.TokenFast with
    | .error .eof => (acc.reverse, .eofOk)
    | .error e => (acc.reverse, .failed e)
    | .ok (t, l') => lexTokensLoop l' fuel (t :: acc)

/-- The full token stream of `input` lexed with an initial buffer of
`bufSize` bytes (a fresh `NewJSONLexer` after `SetBufSize`). -/
def lexTokens (input : List Nat) (bufSize : Nat) :
    List TokenGeneric × LexOutcome :=
  lexTokensLoop (SetBufSize (NewJSONLexer input) bufSize)
    (input.length + 2) []

/-! ## Claims about the lexer -/

/-- C1 counterexample: with `skip_delims` still at its default `false`, the
lexer yields no `Delim` token for `{"hello":"world"}`: the stream is
`String("hello"), String("world"), Eof`, not the claimed
`Delim({), String("hello"), Delim(:), String("world"), Delim(}), Eof`. -/
theorem C1_counterexample :
    (SetBufSize (NewJSONLexer [123, 34, 104, 101, 108, 108, 111, 34, 58, 34,
        119, 111, 114, 108, 100, 34, 125]) 32).skipDelims = false ∧
    lexTokens [123, 34, 104, 101, 108, 108, 111, 34, 58, 34,
        119, 111, 114, 108, 100, 34, 125] 32 =
      ([newTokenGenericFromString [104, 101, 108, 108, 111],
        newTokenGenericFromString [119, 111, 114, 108, 100]], .eofOk) ∧
    ([newTokenGenericFromString [104, 101, 108, 108, 111],
      newTokenGenericFromString [119, 111, 114, 108, 100]] : List TokenGeneric) ≠
      [newTokenGenericFromDelim 123,
       newTokenGenericFromString [104, 101, 108, 108, 111],
       newTokenGenericFromDelim 58,
       newTokenGenericFromString [119, 111, 114, 108, 100],
       newTokenGenericFromDelim 125] :=
  ⟨rfl, rfl, by decide⟩

/-- C1 amended: structural delimiter bytes are never emitted as tokens,
whatever `skip_delims` holds: in the `Skipping` state they (like any other
unrecognised byte) are silently skipped, and `{"hello":"world"}` lexes to
`String("hello"), String("world"), Eof`. -/
theorem C1_amended_delims_always_skipped :
    (∀ (l : JSONLexer) (c : Nat), IsDelim c = true →
      l.processStateSkipping c = .ok l) ∧
    lexTokens [123, 34, 104, 101, 108, 108, 111, 34, 58, 34,
        119, 111, 114, 108, 100, 34, 125] 32 =
      ([newTokenGenericFromString [104, 101, 108, 108, 111],
        newTokenGenericFromString [119, 111, 114, 108, 100]], .eofOk) := by
  refine ⟨?_, rfl⟩
  intro l c hc
  have hcases : c = 123 ∨ c = 125 ∨ c = 91 ∨ c = 93 ∨ c = 58 ∨ c = 44 := by
    simp only [IsDelim, Bool.or_eq_true, decide_eq_true_eq] at hc
    tauto
  rcases hcases with h | h | h | h | h | h <;> subst h <;> rfl

theorem C1_amended_delims_always_skipped_witness :
    JSONLexer.processStateSkipping (SetBufSize (NewJSONLexer [123]) 4) 123 =
      .ok (SetBufSize (NewJSONLexer [123]) 4) :=
  C1_amended_delims_always_skipped.1 (SetBufSize (NewJSONLexer [123]) 4) 123
    (by decide)

/-- C4 counterexample: the byte `@` (0x40), which can begin no token, is
silently skipped in the `Skipping` state — the input `@` lexes to a clean
`Eof` with no `UnexpectedByte` error (the lexer has no such error at all). -/
theorem C4_counterexample : lexTokens [64] 4 = ([], .eofOk) := rfl

/-- C4 amended: in the `Skipping` state a byte that is not a quote, not a
number-opening byte and not a first letter of `true`/`false`/`null` is
silently skipped, never an error (delimiters and whitespace included: they
get no dedicated case). -/
theorem C4_amended_unknown_bytes_skipped :
    (∀ (l : JSONLexer) (c : Nat), c ≠ 34 → CanAppearInNumber c = false →
      c ≠ 116 → c ≠ 84 → c ≠ 102 → c ≠ 70 → c ≠ 110 → c ≠ 78 →
      l.processStateSkipping c = .ok l) ∧
    lexTokens [64] 4 = ([], .eofOk) := by
  refine ⟨?_, rfl⟩
  intro l c h34 hnum ht hT hf hF hn hN
  unfold JSONLexer.processStateSkipping
  rw [if_neg h34, if_neg (by simp [hnum]),
    if_neg (by simp [ht, hT, hf, hF]), if_neg (by simp [hn, hN])]

theorem C4_amended_unknown_bytes_skipped_witness :
    JSONLexer.processStateSkipping (SetBufSize (NewJSONLexer [64]) 4) 64 =
      .ok (SetBufSize (NewJSONLexer [64]) 4) :=
  C4_amended_unknown_bytes_skipped.1 (SetBufSize (NewJSONLexer [64]) 4) 64
    (by decide) (by decide) (by decide) (by decide) (by decide) (by decide)
    (by decide) (by decide)

/-- C9 counterexample: for the input consisting exactly of `null`, the
first `next_token` call hits EOF in the `InNull` state (the literal is only
completed by consuming a following byte) and fails with `UnexpectedEof`; no
`Null` token and no clean `Eof` are produced. -/
theorem C9_counterexample :
    lexTokens [110, 117, 108, 108] 8 = ([], .failed .unexpectedEOF) ∧
    (([] : List TokenGeneric), LexOutcome.failed .unexpectedEOF) ≠
      ([newTokenGenericFromNull], LexOutcome.eofOk) :=
  ⟨rfl, by decide⟩

/-- C9 amended: bare `null` followed by end of input is an `UnexpectedEof`
error (completing the literal requires consuming one more byte); with a
terminating byte, e.g. `null `, the lexer emits `Null` and the next call
returns a clean `Eof`. -/
theorem C9_amended_bare_null_eof :
    lexTokens [110, 117, 108, 108] 8 = ([], .failed .unexpectedEOF) ∧
    lexTokens [110, 117, 108, 108, 32] 8 =
      ([newTokenGenericFromNull], .eofOk) :=
  ⟨rfl, rfl⟩

/-- C3 counterexample: lexing `1 `, the space at index 1 terminates the
number token (the token text is `1`, ending at index 1 exclusive), but
after the call `currPos = 2`: the terminating byte was consumed by the
loop, it does not remain for the next call to process in `Skipping`. -/
theorem C3_counterexample :
    JSONLexer.TokenFast (SetBufSize (NewJSONLexer [49, 32]) 8) =
      .ok (newTokenGenericFromNumber [49],
        { inputRest := [], readingFinished := true,
          state := .stateLexerSkipping, buf := [49, 32], currPos := 2,
          unicodeRuneBytesCounter := 0, currTokenStart := 0,
          currTokenEnd := 1, currTokenType := .LexerTokenTypeNumber,
          newTokenFound := false, skipDelims := false }) ∧
    (2 : Nat) ≠ 1 :=
  ⟨rfl, by decide⟩

/-- C3 amended: the terminating whitespace / delimiter byte is excluded
from the number token's text (`currTokenEnd` is the terminator's position),
but the byte itself is consumed: `TokenFast` increments `currPos` past it
before returning, so the next call resumes after it.  The token stream is
unaffected because whitespace and delimiters are skipped in `Skipping`
anyway. -/
theorem C3_amended_number_terminator_consumed :
    (∀ (l : JSONLexer) (c : Nat), IsDelim c = true ∨ isSpaceByte c = true →
      l.processStateNumber c = .ok { l with
                                       state := .stateLexerSkipping,
                                       currTokenEnd := l.currPos,
                                       newTokenFound := true }) ∧
    lexTokens [49, 32, 50, 32] 8 =
      ([newTokenGenericFromNumber [49], newTokenGenericFromNumber [50]],
        .eofOk) := by
  refine ⟨?_, rfl⟩
  intro l c hc
  have hcases : c = 123 ∨ c = 125 ∨ c = 91 ∨ c = 93 ∨ c = 58 ∨ c = 44 ∨
      c = 9 ∨ c = 10 ∨ c = 11 ∨ c = 12 ∨ c = 13 ∨ c = 32 ∨ c = 133 ∨
      c = 160 := by
    rcases hc with h | h
    · simp only [IsDelim, Bool.or_eq_true, decide_eq_true_eq] at h
      tauto
    · simp only [isSpaceByte, Bool.or_eq_true, decide_eq_true_eq] at h
      tauto
  rcases hcases with h | h | h | h | h | h | h | h | h | h | h | h | h | h <;>
    subst h <;> rfl

theorem C3_amended_number_terminator_consumed_witness :
    JSONLexer.processStateNumber (SetBufSize (NewJSONLexer [49, 32]) 8) 32 =
      .ok { (SetBufSize (NewJSONLexer [49, 32]) 8) with
            state := .stateLexerSkipping, currTokenEnd := 0,
            newTokenFound := true } :=
  C3_amended_number_terminator_consumed.1 (SetBufSize (NewJSONLexer [49, 32]) 8)
    32 (Or.inr (by decide))

/-- Completion of `processStateNull` at offset 4 never looks at the byte. -/
theorem processStateNull_complete (l : JSONLexer) (c : Nat)
    (h4 : l.currPos - l.currTokenStart = 4) :
    l.processStateNull c = .ok { l with
                                   state := .stateLexerSkipping,
                                   currTokenEnd := l.currPos,
                                   newTokenFound := true } := by
  unfold JSONLexer.processStateNull
  dsimp only
  rw [if_pos (by rw [h4]; rfl)]

/-- Completion of `processStateBool` at the expected literal's length never
looks at the byte. -/
theorem processStateBool_complete (l : JSONLexer) (c : Nat)
    (h : (toLowerByte (l.buf.getD l.currTokenStart 0) = 116 ∧
            l.currPos - l.currTokenStart = 4) ∨
         (toLowerByte (l.buf.getD l.currTokenStart 0) = 102 ∧
            l.currPos - l.currTokenStart = 5)) :
    l.processStateBool c = .ok { l with
                                   state := .stateLexerSkipping,
                                   currTokenEnd := l.currPos,
                                   newTokenFound := true } := by
  unfold JSONLexer.processStateBool
  dsimp only
  rcases h with ⟨hf, hn⟩ | ⟨hf, hn⟩ <;> rw [hf] <;> simp only [reduceIte] <;>
    rw [if_pos (by rw [hn]; rfl)]

set_option maxHeartbeats 1000000 in
set_option maxRecDepth 10000 in
/-- Whole-input run: any byte value `b` after `null` completes the literal
and is itself skipped. -/
theorem lexTokens_null_junk_byte : ∀ b : Nat, b < 256 →
    lexTokens ([110, 117, 108, 108] ++ b :: [34, 97, 34]) 8 =
      ([newTokenGenericFromNull, newTokenGenericFromString [97]], .eofOk) := by
  decide

set_option maxRecDepth 10000 in
/-- Whole-input run: any byte value `b` after `true` completes the literal
and is itself skipped. -/
theorem lexTokens_true_junk_byte : ∀ b : Nat, b < 256 →
    lexTokens ([116, 114, 117, 101] ++ b :: [34, 97, 34]) 8 =
      ([newTokenGenericFromBool true, newTokenGenericFromString [97]],
        .eofOk) := by
  decide

set_option maxHeartbeats 1000000 in
set_option maxRecDepth 10000 in
/-- Whole-input run: any byte value `b` after `false` completes the literal
and is itself skipped. -/
theorem lexTokens_false_junk_byte : ∀ b : Nat, b < 256 →
    lexTokens ([102, 97, 108, 115, 101] ++ b :: [34, 97, 34]) 9 =
      ([newTokenGenericFromBool false, newTokenGenericFromString [97]],
        .eofOk) := by
  decide

/-- C10: a `true`/`false`/`null` literal is completed only by consuming the
byte that follows it, and that byte's value is never inspected: at the
completion offset the state transition is identical for any two bytes,
mid-literal bytes never complete a token, and whole-input runs with an
arbitrary junk byte after the literal produce the very same token stream
(the junk byte neither causes an error nor begins a token). -/
theorem C10_literal_completion_byte_blind :
    (∀ (l : JSONLexer) (c c' : Nat), l.currPos - l.currTokenStart = 4 →
      l.processStateNull c = l.processStateNull c' ∧
      l.processStateNull c = .ok { l with
                                     state := .stateLexerSkipping,
                                     currTokenEnd := l.currPos,
                                     newTokenFound := true }) ∧
    (∀ (l : JSONLexer) (c c' : Nat),
      (toLowerByte (l.buf.getD l.currTokenStart 0) = 116 ∧
         l.currPos - l.currTokenStart = 4) ∨
      (toLowerByte (l.buf.getD l.currTokenStart 0) = 102 ∧
         l.currPos - l.currTokenStart = 5) →
      l.processStateBool c = l.processStateBool c' ∧
      l.processStateBool c = .ok { l with
                                     state := .stateLexerSkipping,
                                     currTokenEnd := l.currPos,
                                     newTokenFound := true }) ∧
    (∀ (l l' : JSONLexer) (c : Nat), l.currPos - l.currTokenStart < 4 →
      l.processStateNull c = .ok l' → l' = l) ∧
    (∀ b : Nat, b < 256 →
      lexTokens ([110, 117, 108, 108] ++ b :: [34, 97, 34]) 8 =
      ([newTokenGenericFromNull, newTokenGenericFromString [97]], .eofOk)) ∧
    (∀ b : Nat, b < 256 →
      lexTokens ([116, 114, 117, 101] ++ b :: [34, 97, 34]) 8 =
      ([newTokenGenericFromBool true, newTokenGenericFromString [97]],
        .eofOk)) ∧
    (∀ b : Nat, b < 256 →
      lexTokens ([102, 97, 108, 115, 101] ++ b :: [34, 97, 34]) 9 =
      ([newTokenGenericFromBool false, newTokenGenericFromString [97]],
        .eofOk)) := by
  refine ⟨?_, ?_, ?_, ?_, ?_, ?_⟩
  · intro l c c' h4
    exact ⟨(processStateNull_complete l c h4).trans
        (processStateNull_complete l c' h4).symm,
      processStateNull_complete l c h4⟩
  · intro l c c' h
    exact ⟨(processStateBool_complete l c h).trans
        (processStateBool_complete l c' h).symm,
      processStateBool_complete l c h⟩
  · intro l l' c hlt hok
    unfold JSONLexer.processStateNull at hok
    dsimp only at hok
    rw [if_neg (by simp only [JSONLexer.nullLiteral, List.length_cons,
      List.length_nil]; omega)] at hok
    split at hok
    · cases hok
    · cases hok; rfl
  · exact lexTokens_null_junk_byte
  · exact lexTokens_true_junk_byte
  · exact lexTokens_false_junk_byte

/-! ## Buffer-size invariance (C2)

The buffered lexer is related to a reference lexer whose buffer holds the
whole input (the state a `NewJSONLexer` with `SetBufSize (input.length + 2)`
reaches after its initial refill): the two agree on the state machine
fields, on the bytes not yet consumed, and on the bytes of the token under
construction.  Every loop iteration preserves the relation, refills
included, so the token streams coincide for every initial buffer size from
2 upward. -/

/-- States in which a token is under construction. -/
def inToken : lexerState → Bool
  | .stateLexerSkipping => false
  | .stateLexerIdle => false
  | _ => true

namespace JSONLexer

/-- The bytes the lexer has not yet consumed: the unread part of the buffer
followed by what the source still holds. -/
def unread (l : JSONLexer) : List Nat :=
  l.buf.drop l.currPos ++ l.inputRest

/-- Number of unconsumed bytes. -/
def unreadLen (l : JSONLexer) : Nat := l.unread.length

/-- Potential of the `TokenFast` loop: strictly decreases on every
iteration that neither returns nor errors. -/
def phi (l : JSONLexer) : Nat :=
  2 * l.inputRest.length + (l.buf.length - l.currPos) +
    (if l.readingFinished then 1 else 2)

end JSONLexer

/-- The simulation relation between a buffered lexer `L` and the reference
lexer `R` holding the whole remaining input in its buffer. -/
structure Sim (L R : JSONLexer) : Prop where
  state_eq : L.state = R.state
  counter_eq : L.unicodeRuneBytesCounter = R.unicodeRuneBytesCounter
  type_eq : L.currTokenType = R.currTokenType
  skip_eq : L.skipDelims = R.skipDelims
  nf_L : L.newTokenFound = false
  nf_R : R.newTokenFound = false
  unread_eq : L.unread = R.unread
  pos_le_L : L.currPos ≤ L.buf.length
  pos_le_R : R.currPos ≤ R.buf.length
  ref_fin : R.readingFinished = true
  ref_rest : R.inputRest = []
  fin_rest : L.readingFinished = true → L.inputRest = []
  buf_pos : L.readingFinished = false → 1 ≤ L.buf.length
  not_idle : L.state ≠ .stateLexerIdle
  tok : inToken L.state = true →
    L.currTokenStart < L.currPos ∧ R.currTokenStart < R.currPos ∧
    L.currPos - L.currTokenStart = R.currPos - R.currTokenStart ∧
    (L.buf.take L.currPos).drop L.currTokenStart =
      (R.buf.take R.currPos).drop R.currTokenStart

/-- The extra facts available right after a token was completed (both
lexers are back in `Skipping`, `currPos` is one past `currTokenEnd`, and
the completed token's byte ranges agree). -/
structure DoneSim (L R : JSONLexer) : Prop where
  sim : Sim L R
  state_skip : L.state = .stateLexerSkipping
  endp_L : L.currPos = L.currTokenEnd + 1
  endp_R : R.currPos = R.currTokenEnd + 1
  start_lt_L : L.currTokenStart < L.currTokenEnd
  start_lt_R : R.currTokenStart < R.currTokenEnd
  off_eq : L.currTokenEnd - L.currTokenStart = R.currTokenEnd - R.currTokenStart
  seg_eq : (L.buf.take L.currTokenEnd).drop L.currTokenStart =
           (R.buf.take R.currTokenEnd).drop R.currTokenStart

/-- Correspondence of `TokenFast` results: equal tokens with still-related
successor lexers, or the very same (non-fuel) error. -/
def outcomeSim : Except LexError (TokenGeneric × JSONLexer) →
    Except LexError (TokenGeneric × JSONLexer) → Prop
  | .ok (t, L'), .ok (t', R') => t = t' ∧ Sim L' R'
  | .error e, .error e' => e = e' ∧ e ≠ .outOfFuel
  | _, _ => False

/-! ### List bookkeeping lemmas -/

theorem listWrite_eq_append :
    ∀ (xs l : List Nat) (i : Nat), i + xs.length ≤ l.length →
    listWrite l i xs = l.take i ++ xs ++ l.drop (i + xs.length) := by
  intro xs
  induction xs with
  | nil => intro l i h; simp [listWrite]
  | cons x xs ih =>
    intro l i h
    have hi : i < l.length := by
      simp only [List.length_cons] at h; omega
    have hset : l.set i x = l.take i ++ x :: l.drop (i + 1) := by
      rw [List.set_eq_take_append_cons_drop, if_pos hi]
    have hlen : (l.set i x).length = l.length := by simp
    rw [listWrite, ih (l.set i x) (i + 1)
      (by rw [hlen]; simp only [List.length_cons] at h; omega)]
    rw [hset]
    have hti : (l.take i).length = i := by
      simp only [List.length_take]; omega
    have h1 : (l.take i ++ x :: l.drop (i + 1)).take (i + 1) =
        l.take i ++ [x] := by
      rw [List.take_append_eq_append_take, List.take_take, hti,
        Nat.min_eq_right (by omega : i ≤ i + 1),
        show i + 1 - i = 1 from by omega]
      rfl
    have h2 : (l.take i ++ x :: l.drop (i + 1)).drop (i + 1 + xs.length) =
        l.drop (i + (x :: xs).length) := by
      rw [List.drop_append_eq_append_drop, hti,
        List.drop_eq_nil_of_le (by rw [hti]; omega),
        show i + 1 + xs.length - i = xs.length + 1 from by omega,
        List.drop_succ_cons, List.drop_drop, List.nil_append]
      congr 1
      simp only [List.length_cons]
      omega
    rw [h1, h2]
    simp

/-- The unread byte under the cursor heads the unread list. -/
theorem unread_head {l : JSONLexer} (h : l.currPos < l.buf.length) :
    l.unread = l.buf.getD l.currPos 0 :: ({ l with currPos := l.currPos + 1 } : JSONLexer).unread := by
  unfold JSONLexer.unread
  dsimp only
  rw [List.drop_eq_getElem_cons h]
  rw [List.getD_eq_getElem?_getD, List.getElem?_eq_getElem h]
  rfl

/-- Extending the token segment by the byte under the cursor. -/
theorem seg_extend {buf : List Nat} {start pos : Nat}
    (hs : start ≤ pos) (hp : pos < buf.length) :
    (buf.take (pos + 1)).drop start =
      (buf.take pos).drop start ++ [buf.getD pos 0] := by
  rw [List.take_succ, List.getElem?_eq_getElem hp]
  rw [List.drop_append_eq_append_drop]
  have : start - (buf.take pos).length = 0 := by
    simp [List.length_take]
    omega
  rw [this]
  rw [List.getD_eq_getElem?_getD, List.getElem?_eq_getElem hp]
  rfl

/-- The reference lexer also has an unread byte whenever the buffered one
does, the two bytes agree, and so do the unread tails. -/
theorem sim_head {L R : JSONLexer} (h : Sim L R)
    (hL : L.currPos < L.buf.length) :
    R.currPos < R.buf.length ∧
    L.buf.getD L.currPos 0 = R.buf.getD R.currPos 0 ∧
    L.buf.drop (L.currPos + 1) ++ L.inputRest =
      R.buf.drop (R.currPos + 1) ++ R.inputRest := by
  have hR : R.currPos < R.buf.length := by
    by_contra hc
    push_neg at hc
    have hre : R.unread = [] := by
      unfold JSONLexer.unread
      rw [List.drop_eq_nil_of_le hc, h.ref_rest]
      rfl
    have hl := unread_head hL
    rw [h.unread_eq, hre] at hl
    cases hl
  have hl := unread_head hL
  rw [h.unread_eq, unread_head hR] at hl
  injection hl with hb ht
  refine ⟨hR, hb.symm, ?_⟩
  have ht' := ht.symm
  unfold JSONLexer.unread at ht'
  dsimp only at ht'
  exact ht'

/-- The one-byte token segment created when a token starts at `pos`. -/
theorem seg_singleton {buf : List Nat} {pos : Nat} (hp : pos < buf.length) :
    (buf.take (pos + 1)).drop pos = [buf.getD pos 0] := by
  rw [seg_extend (le_refl pos) hp,
    List.drop_eq_nil_of_le (by simp [List.length_take])]
  rfl

/-- The first byte of the token under construction, read through the
segment. -/
theorem getD_start {buf : List Nat} {start pos : Nat}
    (hs : start < pos) (hp : pos ≤ buf.length) :
    buf.getD start 0 = ((buf.take pos).drop start).getD 0 0 := by
  rw [List.getD_eq_getElem?_getD, List.getD_eq_getElem?_getD,
    List.getElem?_drop, List.getElem?_take]
  rw [if_pos (by omega : start + 0 < pos)]
  norm_num

/-- Advancing one byte without starting or completing a token preserves the
simulation (covers whitespace skipping, string/number accumulation and all
escape bookkeeping). -/
theorem sim_step_keep {L R : JSONLexer} (h : Sim L R)
    (hL : L.currPos < L.buf.length) (hR : R.currPos < R.buf.length)
    (s' : lexerState) (kL kR : Nat) (hk : kL = kR)
    (htok : inToken s' = true → inToken L.state = true)
    (hni : s' ≠ .stateLexerIdle) :
    Sim { L with state := s', unicodeRuneBytesCounter := kL,
                 currPos := L.currPos + 1 }
        { R with state := s', unicodeRuneBytesCounter := kR,
                 currPos := R.currPos + 1 } := by
  subst hk
  obtain ⟨hRp, hb, htail⟩ := sim_head h hL
  refine ⟨rfl, rfl, h.type_eq, h.skip_eq, h.nf_L, h.nf_R,
    by unfold JSONLexer.unread; dsimp only; exact htail,
    by dsimp only; omega, by dsimp only; omega, h.ref_fin, h.ref_rest,
    h.fin_rest, fun hf => h.buf_pos hf, by dsimp only; exact hni, ?_⟩
  intro hs'
  obtain ⟨h1, h2, h3, h4⟩ := h.tok (htok hs')
  dsimp only
  refine ⟨by omega, by omega, by omega, ?_⟩
  rw [seg_extend (le_of_lt h1) hL, seg_extend (le_of_lt h2) hRp, h4, hb]

/-- Starting a token at the current byte preserves the simulation. -/
theorem sim_step_start {L R : JSONLexer} (h : Sim L R)
    (hL : L.currPos < L.buf.length) (hR : R.currPos < R.buf.length)
    (s' : lexerState) (tt : TokenType) (hni : s' ≠ .stateLexerIdle) :
    Sim { L with state := s', currTokenType := tt,
                 currTokenStart := L.currPos, currPos := L.currPos + 1 }
        { R with state := s', currTokenType := tt,
                 currTokenStart := R.currPos, currPos := R.currPos + 1 } := by
  obtain ⟨hRp, hb, htail⟩ := sim_head h hL
  refine ⟨rfl, h.counter_eq, rfl, h.skip_eq, h.nf_L, h.nf_R,
    by unfold JSONLexer.unread; dsimp only; exact htail,
    by dsimp only; omega, by dsimp only; omega, h.ref_fin, h.ref_rest,
    h.fin_rest, fun hf => h.buf_pos hf, by dsimp only; exact hni, ?_⟩
  intro _
  dsimp only
  refine ⟨by omega, by omega, by omega, ?_⟩
  rw [seg_singleton hL, seg_singleton hRp, hb]

/-- Completing a token at the current byte: the post-return states are
related and carry equal completed-token ranges. -/
theorem sim_step_done {L R : JSONLexer} (h : Sim L R)
    (hL : L.currPos < L.buf.length) (hR : R.currPos < R.buf.length)
    (htok : inToken L.state = true) :
    DoneSim { L with state := .stateLexerSkipping, currTokenEnd := L.currPos,
                     newTokenFound := false, currPos := L.currPos + 1 }
            { R with state := .stateLexerSkipping, currTokenEnd := R.currPos,
                     newTokenFound := false, currPos := R.currPos + 1 } := by
  obtain ⟨h1, h2, h3, h4⟩ := h.tok htok
  obtain ⟨hRp, hb, htail⟩ := sim_head h hL
  refine ⟨⟨rfl, h.counter_eq, h.type_eq, h.skip_eq, rfl, rfl,
    by unfold JSONLexer.unread; dsimp only; exact htail,
    by dsimp only; omega, by dsimp only; omega, h.ref_fin, h.ref_rest,
    h.fin_rest, fun hf => h.buf_pos hf,
    (by dsimp only; intro hx; cases hx),
    (by dsimp only; intro hx; simp [inToken] at hx)⟩,
    rfl, rfl, rfl, ?_, ?_, ?_, ?_⟩
  · dsimp only; omega
  · dsimp only; omega
  · dsimp only; omega
  · dsimp only; exact h4

/-- Advancing one byte with no state-record change at all (whitespace
skipping, string/number accumulation, matching literal bytes). -/
theorem sim_step_skip {L R : JSONLexer} (h : Sim L R)
    (hL : L.currPos < L.buf.length) (hR : R.currPos < R.buf.length) :
    Sim { L with currPos := L.currPos + 1 }
        { R with currPos := R.currPos + 1 } := by
  obtain ⟨hRp, hb, htail⟩ := sim_head h hL
  refine ⟨h.state_eq, h.counter_eq, h.type_eq, h.skip_eq, h.nf_L, h.nf_R,
    by unfold JSONLexer.unread; dsimp only; exact htail,
    by dsimp only; omega, by dsimp only; omega, h.ref_fin, h.ref_rest,
    h.fin_rest, fun hf => h.buf_pos hf, by dsimp only; exact h.not_idle, ?_⟩
  intro hs'
  obtain ⟨h1, h2, h3, h4⟩ := h.tok hs'
  dsimp only
  refine ⟨by omega, by omega, by omega, ?_⟩
  rw [seg_extend (le_of_lt h1) hL, seg_extend (le_of_lt h2) hRp, h4, hb]

/-- Advancing one byte changing only the unicode escape counter. -/
theorem sim_step_counter {L R : JSONLexer} (h : Sim L R)
    (hL : L.currPos < L.buf.length) (hR : R.currPos < R.buf.length)
    (kL kR : Nat) (hk : kL = kR) :
    Sim { L with unicodeRuneBytesCounter := kL, currPos := L.currPos + 1 }
        { R with unicodeRuneBytesCounter := kR, currPos := R.currPos + 1 } := by
  subst hk
  obtain ⟨hRp, hb, htail⟩ := sim_head h hL
  refine ⟨h.state_eq, rfl, h.type_eq, h.skip_eq, h.nf_L, h.nf_R,
    by unfold JSONLexer.unread; dsimp only; exact htail,
    by dsimp only; omega, by dsimp only; omega, h.ref_fin, h.ref_rest,
    h.fin_rest, fun hf => h.buf_pos hf, by dsimp only; exact h.not_idle, ?_⟩
  intro hs'
  obtain ⟨h1, h2, h3, h4⟩ := h.tok hs'
  dsimp only
  refine ⟨by omega, by omega, by omega, ?_⟩
  rw [seg_extend (le_of_lt h1) hL, seg_extend (le_of_lt h2) hRp, h4, hb]

/-- Relation between the two `feed` results: identical errors, or states
that stay related after the `currPos` increment, splitting on whether a
token was just completed. -/
def feedRel : Except LexError JSONLexer → Except LexError JSONLexer → Prop
  | .error e, .error e' => e = e' ∧ e ≠ .outOfFuel
  | .ok L1, .ok R1 =>
      L1.newTokenFound = R1.newTokenFound ∧
      (L1.newTokenFound = false →
        Sim { L1 with currPos := L1.currPos + 1 }
            { R1 with currPos := R1.currPos + 1 }) ∧
      (L1.newTokenFound = true →
        DoneSim { L1 with currPos := L1.currPos + 1, newTokenFound := false }
                { R1 with currPos := R1.currPos + 1, newTokenFound := false })
  | _, _ => False

/-- One `feed` of the byte under the cursor preserves the simulation. -/
theorem feed_sim {L R : JSONLexer} (h : Sim L R)
    (hL : L.currPos < L.buf.length) :
    feedRel (L.feed (L.buf.getD L.currPos 0))
            (R.feed (R.buf.getD R.currPos 0)) := by
  obtain ⟨hRp, hb, -⟩ := sim_head h hL
  rw [show R.buf.getD R.currPos 0 = L.buf.getD L.currPos 0 from hb.symm]
  set c := L.buf.getD L.currPos 0 with hc
  have hnfeq : L.newTokenFound = R.newTokenFound := h.nf_L.trans h.nf_R.symm
  unfold JSONLexer.feed
  have hstR := h.state_eq
  cases hst : L.state with
  | stateLexerIdle => exact absurd hst h.not_idle
  | stateLexerSkipping =>
    rw [hst] at hstR
    rw [← hstR]
    unfold JSONLexer.processStateSkipping
    by_cases h34 : c = 34
    · rw [if_pos h34, if_pos h34]
      refine ⟨hnfeq, fun _ => ?_, fun htf => ?_⟩
      · exact @sim_step_start L R h hL hRp _ _ (by intro hx; cases hx)
      · rw [h.nf_L] at htf; cases htf
    · rw [if_neg h34, if_neg h34]
      by_cases hnum : CanAppearInNumber c
      · rw [if_pos hnum, if_pos hnum]
        refine ⟨hnfeq, fun _ => ?_, fun htf => ?_⟩
        · exact @sim_step_start L R h hL hRp _ _ (by intro hx; cases hx)
        · rw [h.nf_L] at htf; cases htf
      · rw [if_neg hnum, if_neg hnum]
        by_cases hbl : (c = 116 || c = 84 || c = 102 || c = 70) = true
        · rw [if_pos hbl, if_pos hbl]
          refine ⟨hnfeq, fun _ => ?_, fun htf => ?_⟩
          · exact @sim_step_start L R h hL hRp _ _ (by intro hx; cases hx)
          · rw [h.nf_L] at htf; cases htf
        · rw [if_neg hbl, if_neg hbl]
          by_cases hnl : (c = 110 || c = 78) = true
          · rw [if_pos hnl, if_pos hnl]
            refine ⟨hnfeq, fun _ => ?_, fun htf => ?_⟩
            · exact @sim_step_start L R h hL hRp _ _ (by intro hx; cases hx)
            · rw [h.nf_L] at htf; cases htf
          · rw [if_neg hnl, if_neg hnl]
            refine ⟨hnfeq, fun _ => ?_, fun htf => ?_⟩
            · exact @sim_step_skip L R h hL hRp
            · rw [h.nf_L] at htf; cases htf
  | stateLexerString =>
    rw [hst] at hstR
    rw [← hstR]
    unfold JSONLexer.processStateString
    by_cases h34 : c = 34
    · rw [if_pos h34, if_pos h34]
      refine ⟨rfl, fun hf => ?_, fun _ => ?_⟩
      · cases hf
      · exact @sim_step_done L R h hL hRp (by rw [hst]; rfl)
    · rw [if_neg h34, if_neg h34]
      by_cases h92 : c = 92
      · rw [if_pos h92, if_pos h92]
        refine ⟨hnfeq, fun _ => ?_, fun htf => ?_⟩
        · exact @sim_step_keep L R h hL hRp _ L.unicodeRuneBytesCounter
            R.unicodeRuneBytesCounter h.counter_eq
            (fun _ => by rw [hst]; rfl) (by intro hx; cases hx)
        · rw [h.nf_L] at htf; cases htf
      · rw [if_neg h92, if_neg h92]
        refine ⟨hnfeq, fun _ => ?_, fun htf => ?_⟩
        · exact @sim_step_skip L R h hL hRp
        · rw [h.nf_L] at htf; cases htf
  | stateLexerPendingEscapedSymbol =>
    rw [hst] at hstR
    rw [← hstR]
    unfold JSONLexer.processStatePendingEscapedSymbol
    by_cases hv : (!IsValidEscapedSymbol c) = true
    · rw [if_pos hv, if_pos hv]
      exact ⟨rfl, by intro hx; cases hx⟩
    · rw [if_neg hv, if_neg hv]
      by_cases hu : (c = 117 || c = 85) = true
      · rw [if_pos hu, if_pos hu]
        refine ⟨hnfeq, fun _ => ?_, fun htf => ?_⟩
        · exact @sim_step_keep L R h hL hRp _ 0 0 rfl
            (fun _ => by rw [hst]; rfl) (by intro hx; cases hx)
        · rw [h.nf_L] at htf; cases htf
      · rw [if_neg hu, if_neg hu]
        refine ⟨hnfeq, fun _ => ?_, fun htf => ?_⟩
        · exact @sim_step_keep L R h hL hRp _ L.unicodeRuneBytesCounter
            R.unicodeRuneBytesCounter h.counter_eq
            (fun _ => by rw [hst]; rfl) (by intro hx; cases hx)
        · rw [h.nf_L] at htf; cases htf
  | stateLexerUnicodeRune =>
    rw [hst] at hstR
    rw [← hstR]
    unfold JSONLexer.processStateUnicodeRune
    by_cases hx : (!IsHexDigit c) = true
    · rw [if_pos hx, if_pos hx]
      exact ⟨rfl, by intro hxx; cases hxx⟩
    · rw [if_neg hx, if_neg hx]
      rw [← h.counter_eq]
      by_cases h4 : L.unicodeRuneBytesCounter + 1 = 4
      · rw [if_pos h4, if_pos h4]
        refine ⟨hnfeq, fun _ => ?_, fun htf => ?_⟩
        · exact @sim_step_keep L R h hL hRp _ (L.unicodeRuneBytesCounter + 1)
            (L.unicodeRuneBytesCounter + 1) rfl
            (fun _ => by rw [hst]; rfl) (by intro hxx; cases hxx)
        · rw [h.nf_L] at htf; cases htf
      · rw [if_neg h4, if_neg h4]
        refine ⟨hnfeq, fun _ => ?_, fun htf => ?_⟩
        · exact @sim_step_counter L R h hL hRp
            (L.unicodeRuneBytesCounter + 1) (L.unicodeRuneBytesCounter + 1) rfl
        · rw [h.nf_L] at htf; cases htf
  | stateLexerNumber =>
    rw [hst] at hstR
    rw [← hstR]
    unfold JSONLexer.processStateNumber
    by_cases hd : isDigitByte c
    · rw [if_pos hd, if_pos hd]
      refine ⟨hnfeq, fun _ => ?_, fun htf => ?_⟩
      · exact @sim_step_skip L R h hL hRp
      · rw [h.nf_L] at htf; cases htf
    · rw [if_neg hd, if_neg hd]
      by_cases h46 : c = 46
      · rw [if_pos h46, if_pos h46]
        refine ⟨hnfeq, fun _ => ?_, fun htf => ?_⟩
        · exact @sim_step_skip L R h hL hRp
        · rw [h.nf_L] at htf; cases htf
      · rw [if_neg h46, if_neg h46]
        by_cases hterm : (IsDelim c || isSpaceByte c) = true
        · rw [if_pos hterm, if_pos hterm]
          refine ⟨rfl, fun hf => ?_, fun _ => ?_⟩
          · cases hf
          · exact @sim_step_done L R h hL hRp (by rw [hst]; rfl)
        · rw [if_neg hterm, if_neg hterm]
          refine ⟨hnfeq, fun _ => ?_, fun htf => ?_⟩
          · exact @sim_step_skip L R h hL hRp
          · rw [h.nf_L] at htf; cases htf
  | stateLexerNull =>
    rw [hst] at hstR
    rw [← hstR]
    unfold JSONLexer.processStateNull
    dsimp only
    have hoff := (h.tok (by rw [hst]; rfl)).2.2.1
    rw [← hoff]
    by_cases h4 : L.currPos - L.currTokenStart = JSONLexer.nullLiteral.length
    · rw [if_pos h4, if_pos h4]
      refine ⟨rfl, fun hf => ?_, fun _ => ?_⟩
      · cases hf
      · exact @sim_step_done L R h hL hRp (by rw [hst]; rfl)
    · rw [if_neg h4, if_neg h4]
      by_cases hlit : toLowerByte c ≠
          JSONLexer.nullLiteral.getD (L.currPos - L.currTokenStart) 0
      · rw [if_pos hlit, if_pos hlit]
        exact ⟨rfl, by intro hxx; cases hxx⟩
      · rw [if_neg hlit, if_neg hlit]
        refine ⟨hnfeq, fun _ => ?_, fun htf => ?_⟩
        · exact @sim_step_skip L R h hL hRp
        · rw [h.nf_L] at htf; cases htf
  | stateLexerBool =>
    rw [hst] at hstR
    rw [← hstR]
    unfold JSONLexer.processStateBool
    dsimp only
    have htokh := h.tok (by rw [hst]; rfl)
    obtain ⟨hs1, hs2, hoff, hseg⟩ := htokh
    have hfc : L.buf.getD L.currTokenStart 0 = R.buf.getD R.currTokenStart 0 := by
      rw [getD_start hs1 h.pos_le_L, getD_start hs2 h.pos_le_R, hseg]
    rw [← hfc, ← hoff]
    by_cases hlen : L.currPos - L.currTokenStart =
        (if toLowerByte (L.buf.getD L.currTokenStart 0) = 116 then JSONLexer.trueLiteral
         else if toLowerByte (L.buf.getD L.currTokenStart 0) = 102 then
           JSONLexer.falseLiteral else []).length
    · rw [if_pos hlen, if_pos hlen]
      refine ⟨rfl, fun hf => ?_, fun _ => ?_⟩
      · cases hf
      · exact @sim_step_done L R h hL hRp (by rw [hst]; rfl)
    · rw [if_neg hlen, if_neg hlen]
      by_cases hlit : toLowerByte c ≠
          (if toLowerByte (L.buf.getD L.currTokenStart 0) = 116 then JSONLexer.trueLiteral
           else if toLowerByte (L.buf.getD L.currTokenStart 0) = 102 then
             JSONLexer.falseLiteral else []).getD (L.currPos - L.currTokenStart) 0
      · rw [if_pos hlit, if_pos hlit]
        exact ⟨rfl, by intro hxx; cases hxx⟩
      · rw [if_neg hlit, if_neg hlit]
        refine ⟨hnfeq, fun _ => ?_, fun htf => ?_⟩
        · exact @sim_step_skip L R h hL hRp
        · rw [h.nf_L] at htf; cases htf

/-- A successful in-place unescape preserves the buffer's length and never
writes past it. -/
theorem doUnescapingFull_length {s : List Nat} {u : bytesUnescaper}
    (h : doUnescapingFull s = .ok u) :
    u.input.length = s.length := by
  unfold doUnescapingFull at h
  dsimp only at h
  cases hl : bytesUnescaper.loop (initUnescaper s) 0 s.length with
  | error e => rw [hl] at h; cases h
  | ok u' =>
    rw [hl] at h
    dsimp only at h
    cases ht : u'.terminate with
    | error e => rw [ht] at h; cases h
    | ok _ =>
      rw [ht] at h
      cases h
      exact (unescLoop_invariant s s.length _ hl).2

/-- Replacing the bytes strictly between `s` and `e` (exclusive) by an
equally long list does not change the buffer's length nor anything from
position `e` on. -/
theorem mutate_buf_facts {buf mid : List Nat} {s e : Nat}
    (hse : s + 1 ≤ e) (hel : e ≤ buf.length)
    (hmid : mid.length = e - (s + 1)) :
    (buf.take (s + 1) ++ mid ++ buf.drop e).length = buf.length ∧
    ∀ p, e ≤ p → (buf.take (s + 1) ++ mid ++ buf.drop e).drop p = buf.drop p := by
  have hlt : (buf.take (s + 1)).length = s + 1 := by
    simp only [List.length_take]
    omega
  have hpre : (buf.take (s + 1) ++ mid).length = e := by
    simp only [List.length_append, hlt, hmid]
    omega
  constructor
  · simp only [List.append_assoc, List.length_append, List.length_drop]
    simp only [← List.append_assoc, List.length_append] at hpre ⊢
    omega
  · intro p hp
    rw [show buf.take (s + 1) ++ mid ++ buf.drop e =
        (buf.take (s + 1) ++ mid) ++ buf.drop e from by
      simp [List.append_assoc]]
    rw [List.drop_append_eq_append_drop,
      List.drop_eq_nil_of_le (by rw [hpre]; omega), hpre,
      List.drop_drop, List.nil_append]
    congr 1
    omega

/-- Relation between the two `currToken` results: equal tokens, related
successors (the in-place unescape mutates only already-consumed bytes), or
the very same error. -/
def tokRel (L : JSONLexer) : Except LexError (TokenGeneric × JSONLexer) →
    Except LexError (TokenGeneric × JSONLexer) → Prop
  | .ok (t, L'), .ok (t', R') => t = t' ∧ Sim L' R' ∧ L'.unread = L.unread
  | .error e, .error e' => e = e' ∧ e ≠ .outOfFuel
  | _, _ => False

/-- The successor lexer of a `String` materialisation stays related. -/
theorem sim_mutate {L R : JSONLexer} (h : DoneSim L R) {u : bytesUnescaper}
    (hlen : u.input.length =
      ((L.buf.take L.currTokenEnd).drop (L.currTokenStart + 1)).length)
    (hlenR : u.input.length =
      ((R.buf.take R.currTokenEnd).drop (R.currTokenStart + 1)).length) :
    Sim { L with buf := (L.buf.take (L.currTokenStart + 1)) ++ u.input ++
                        L.buf.drop L.currTokenEnd }
        { R with buf := (R.buf.take (R.currTokenStart + 1)) ++ u.input ++
                        R.buf.drop R.currTokenEnd } ∧
    ({ L with buf := (L.buf.take (L.currTokenStart + 1)) ++ u.input ++
              L.buf.drop L.currTokenEnd } : JSONLexer).unread = L.unread := by
  obtain ⟨hsim, hsk, hepL, hepR, hslL, hslR, hoff, hseg⟩ := h
  have hendL : L.currTokenEnd < L.buf.length := by
    have := hsim.pos_le_L; omega
  have hendR : R.currTokenEnd < R.buf.length := by
    have := hsim.pos_le_R; omega
  have hmidL : u.input.length = L.currTokenEnd - (L.currTokenStart + 1) := by
    rw [hlen]
    simp only [List.length_drop, List.length_take]
    omega
  have hmidR : u.input.length = R.currTokenEnd - (R.currTokenStart + 1) := by
    rw [hlenR]
    simp only [List.length_drop, List.length_take]
    omega
  obtain ⟨hL1, hL2⟩ := @mutate_buf_facts L.buf u.input L.currTokenStart
    L.currTokenEnd (by omega) (le_of_lt hendL) hmidL
  obtain ⟨hR1, hR2⟩ := @mutate_buf_facts R.buf u.input R.currTokenStart
    R.currTokenEnd (by omega) (le_of_lt hendR) hmidR
  have hdL := hL2 L.currPos (by omega)
  have hdR := hR2 R.currPos (by omega)
  have hunL : ({ L with buf := (L.buf.take (L.currTokenStart + 1)) ++ u.input ++
                              L.buf.drop L.currTokenEnd } : JSONLexer).unread =
      L.unread := by
    unfold JSONLexer.unread
    dsimp only
    rw [hdL]
  have hunR : ({ R with buf := (R.buf.take (R.currTokenStart + 1)) ++ u.input ++
                              R.buf.drop R.currTokenEnd } : JSONLexer).unread =
      R.unread := by
    unfold JSONLexer.unread
    dsimp only
    rw [hdR]
  refine ⟨⟨hsim.state_eq, hsim.counter_eq, hsim.type_eq, hsim.skip_eq,
    hsim.nf_L, hsim.nf_R, by rw [hunL, hunR]; exact hsim.unread_eq,
    by dsimp only; rw [hL1]; exact hsim.pos_le_L,
    by dsimp only; rw [hR1]; exact hsim.pos_le_R,
    hsim.ref_fin, hsim.ref_rest, hsim.fin_rest,
    by dsimp only; intro hf; rw [hL1]; exact hsim.buf_pos hf,
    hsim.not_idle, ?_⟩, hunL⟩
  intro hs'
  dsimp only at hs'
  rw [hsk] at hs'
  simp [inToken] at hs'

/-- Materialising the completed token yields the same token and related
successor lexers on both sides, or the very same non-fuel error. -/
theorem currToken_sim {L R : JSONLexer} (h : DoneSim L R) :
    tokRel L (JSONLexer.currToken L) (JSONLexer.currToken R) := by
  have hsim := h.sim
  have hendL : L.currTokenEnd < L.buf.length := by
    have := hsim.pos_le_L; have := h.endp_L; omega
  have hendR : R.currTokenEnd < R.buf.length := by
    have := hsim.pos_le_R; have := h.endp_R; omega
  have hd0 : L.buf.getD L.currTokenStart 0 = R.buf.getD R.currTokenStart 0 := by
    rw [getD_start h.start_lt_L (le_of_lt hendL),
      getD_start h.start_lt_R (le_of_lt hendR), h.seg_eq]
  unfold JSONLexer.currToken
  rw [← hsim.type_eq]
  cases hty : L.currTokenType with
  | LexerTokenTypeDelim =>
    dsimp only
    exact ⟨by rw [hd0], hsim, rfl⟩
  | LexerTokenTypeString =>
    dsimp only
    simp only [JSONLexer.currTokenAsUnsafeString]
    have htl : ∀ (l : List Nat) (s : Nat), l.drop (s + 1) = (l.drop s).drop 1 := by
      intro l s
      rw [List.drop_drop, Nat.add_comm]
    have hsub : (R.buf.take R.currTokenEnd).drop (R.currTokenStart + 1) =
        (L.buf.take L.currTokenEnd).drop (L.currTokenStart + 1) := by
      rw [htl _ R.currTokenStart, htl _ L.currTokenStart, h.seg_eq]
    rw [hsub]
    cases hun : doUnescapingFull
        ((L.buf.take L.currTokenEnd).drop (L.currTokenStart + 1)) with
    | error e =>
      dsimp only
      exact ⟨rfl, by intro hx; cases hx⟩
    | ok u =>
      dsimp only
      have hlen := doUnescapingFull_length hun
      obtain ⟨hs, hu⟩ := @sim_mutate L R h u (by rw [hlen])
        (by rw [hsub, hlen])
      exact ⟨rfl, hs, hu⟩
  | LexerTokenTypeNumber =>
    dsimp only
    simp only [JSONLexer.currTokenAsNumber]
    rw [← h.seg_eq]
    by_cases hacc : goParseFloatAccepts
        ((L.buf.take L.currTokenEnd).drop L.currTokenStart) = true
    · rw [if_pos hacc]
      exact ⟨rfl, hsim, rfl⟩
    · rw [if_neg hacc]
      exact ⟨rfl, by intro hx; cases hx⟩
  | LexerTokenTypeBool =>
    dsimp only
    simp only [JSONLexer.currTokenAsBool]
    rw [← hd0, ← h.seg_eq]
    by_cases ht : toLowerByte (L.buf.getD L.currTokenStart 0) = 116
    · rw [if_pos ht]
      exact ⟨rfl, hsim, rfl⟩
    · rw [if_neg ht]
      by_cases hf : toLowerByte (L.buf.getD L.currTokenStart 0) = 102
      · rw [if_pos hf]
        exact ⟨rfl, hsim, rfl⟩
      · rw [if_neg hf]
        exact ⟨rfl, by intro hx; cases hx⟩
  | LexerTokenTypeNull =>
    dsimp only
    exact ⟨rfl, hsim, rfl⟩

/-- The refill half of `fetchNewData`: filling the buffer tail from the
source preserves the simulation and strictly shrinks the potential. -/
theorem fill_sim (l1 l' : JSONLexer) {R : JSONLexer}
    (hl' : l' =
      if min (l1.buf.length - l1.currPos) l1.inputRest.length <
          l1.buf.length - l1.currPos then
        { l1 with
            buf := (listWrite l1.buf l1.currPos
                (l1.inputRest.take (min (l1.buf.length - l1.currPos)
                  l1.inputRest.length))).take
              (l1.currPos + min (l1.buf.length - l1.currPos)
                l1.inputRest.length),
            inputRest := l1.inputRest.drop
              (min (l1.buf.length - l1.currPos) l1.inputRest.length),
            readingFinished := true }
      else
        { l1 with
            buf := listWrite l1.buf l1.currPos
              (l1.inputRest.take (min (l1.buf.length - l1.currPos)
                l1.inputRest.length)),
            inputRest := l1.inputRest.drop
              (min (l1.buf.length - l1.currPos) l1.inputRest.length) })
    (hst : l1.state = R.state)
    (hcnt : l1.unicodeRuneBytesCounter = R.unicodeRuneBytesCounter)
    (hty : l1.currTokenType = R.currTokenType)
    (hskd : l1.skipDelims = R.skipDelims)
    (hnfL : l1.newTokenFound = false)
    (hnfR : R.newTokenFound = false)
    (hRfin : R.readingFinished = true)
    (hRrest : R.inputRest = [])
    (hRpos : R.currPos ≤ R.buf.length)
    (hni : l1.state ≠ .stateLexerIdle)
    (hfin1 : l1.readingFinished = false)
    (hwant : l1.currPos < l1.buf.length)
    (hun : l1.inputRest = R.unread)
    (htok1 : inToken l1.state = true →
      l1.currTokenStart < l1.currPos ∧ R.currTokenStart < R.currPos ∧
      l1.currPos - l1.currTokenStart = R.currPos - R.currTokenStart ∧
      (l1.buf.take l1.currPos).drop l1.currTokenStart =
        (R.buf.take R.currPos).drop R.currTokenStart) :
    Sim l' R ∧ JSONLexer.phi l' < 2 * l1.inputRest.length + 2 := by
  subst hl'
  by_cases hshort : l1.inputRest.length < l1.buf.length - l1.currPos
  · rw [min_eq_right (le_of_lt hshort), if_pos hshort]
    have hw := listWrite_eq_append l1.inputRest l1.buf l1.currPos (by omega)
    rw [List.take_length, hw]
    have hbt : (l1.buf.take l1.currPos ++ l1.inputRest ++
        l1.buf.drop (l1.currPos + l1.inputRest.length)).take
          (l1.currPos + l1.inputRest.length) =
        l1.buf.take l1.currPos ++ l1.inputRest :=
      List.take_left' (by simp only [List.length_append, List.length_take]; omega)
    rw [hbt, List.drop_length]
    refine ⟨⟨hst, hcnt, hty, hskd, hnfL, hnfR, ?_, ?_, hRpos, hRfin, hRrest,
      ?_, ?_, hni, ?_⟩, ?_⟩
    · unfold JSONLexer.unread
      dsimp only
      rw [List.append_nil,
        List.drop_left' (by simp only [List.length_take]; omega)]
      exact hun
    · dsimp only
      simp only [List.length_append, List.length_take]
      omega
    · intro _
      rfl
    · intro hx
      cases hx
    · intro hx
      dsimp only at hx ⊢
      obtain ⟨a1, a2, a3, a4⟩ := htok1 hx
      refine ⟨a1, a2, a3, ?_⟩
      rw [List.take_left' (by simp only [List.length_take]; omega)]
      exact a4
    · simp only [JSONLexer.phi]
      simp only [if_true]
      simp only [List.length_drop, List.length_append, List.length_take,
        List.length_nil]
      omega
  · rw [min_eq_left (le_of_not_lt hshort), if_neg (lt_irrefl _)]
    have hte : (l1.inputRest.take (l1.buf.length - l1.currPos)).length =
        l1.buf.length - l1.currPos := by
      simp only [List.length_take]
      omega
    have hw := listWrite_eq_append
      (l1.inputRest.take (l1.buf.length - l1.currPos)) l1.buf l1.currPos
      (by rw [hte]; omega)
    rw [hw, hte,
      show l1.currPos + (l1.buf.length - l1.currPos) = l1.buf.length from
        by omega,
      List.drop_length, List.append_nil]
    refine ⟨⟨hst, hcnt, hty, hskd, hnfL, hnfR, ?_, ?_, hRpos, hRfin, hRrest,
      ?_, ?_, hni, ?_⟩, ?_⟩
    · unfold JSONLexer.unread
      dsimp only
      rw [List.drop_left' (by simp only [List.length_take]; omega),
        List.take_append_drop]
      exact hun
    · dsimp only
      simp only [List.length_append, List.length_take]
      omega
    · intro hx
      rw [hfin1] at hx
      cases hx
    · intro _
      dsimp only
      simp only [List.length_append, List.length_take]
      omega
    · intro hx
      dsimp only at hx ⊢
      obtain ⟨a1, a2, a3, a4⟩ := htok1 hx
      refine ⟨a1, a2, a3, ?_⟩
      rw [List.take_left' (by simp only [List.length_take]; omega)]
      exact a4
    · simp only [JSONLexer.phi]
      dsimp only
      rw [hfin1]
      simp only [List.length_drop, List.length_append, List.length_take,
        Bool.false_eq_true, if_false]
      omega

/-- A refill on an exhausted, unfinished buffered lexer preserves the
simulation and strictly decreases the potential. -/
theorem fetch_sim {L R : JSONLexer} (h : Sim L R)
    (hfin : L.readingFinished = false) (hge : L.buf.length ≤ L.currPos) :
    Sim L.fetchNewData R ∧ JSONLexer.phi L.fetchNewData < JSONLexer.phi L := by
  have hpos : L.currPos = L.buf.length := le_antisymm h.pos_le_L hge
  have hb1 : 1 ≤ L.buf.length := h.buf_pos hfin
  have hunL : L.inputRest = R.unread := by
    rw [← h.unread_eq]
    unfold JSONLexer.unread
    rw [List.drop_eq_nil_of_le (by omega), List.nil_append]
  have hphiL : JSONLexer.phi L = 2 * L.inputRest.length + 2 := by
    simp only [JSONLexer.phi, hfin, Bool.false_eq_true, if_false]
    omega
  rw [hphiL]
  unfold JSONLexer.fetchNewData
  by_cases hsk : L.state = lexerState.stateLexerSkipping
  · rw [if_neg (show ¬(L.state ≠ lexerState.stateLexerSkipping ∧
        L.state ≠ lexerState.stateLexerIdle) from by simp [hsk])]
    exact fill_sim { L with currPos := 0 } _ rfl h.state_eq h.counter_eq
      h.type_eq h.skip_eq h.nf_L h.nf_R h.ref_fin h.ref_rest h.pos_le_R
      h.not_idle hfin (by dsimp only; omega) hunL
      (by intro hx; dsimp only at hx; rw [hsk] at hx; simp [inToken] at hx)
  · rw [if_pos (show L.state ≠ lexerState.stateLexerSkipping ∧
        L.state ≠ lexerState.stateLexerIdle from ⟨hsk, h.not_idle⟩)]
    dsimp only
    have hint : inToken L.state = true := by
      cases hLs : L.state
      · exact absurd hLs h.not_idle
      · exact absurd hLs hsk
      all_goals rfl
    obtain ⟨hs1, hs2, hs3, hs4⟩ := h.tok hint
    have hwhole : L.buf.drop L.currTokenStart =
        (L.buf.take L.currPos).drop L.currTokenStart := by
      rw [hpos, List.take_length]
    by_cases hgrow : L.currPos - L.currTokenStart ≥ L.currTokenStart
    · rw [if_pos hgrow]
      have hdst : listWrite (List.replicate (2 * L.buf.length) 0) 0
          (L.buf.drop L.currTokenStart) =
          L.buf.drop L.currTokenStart ++
            (List.replicate (2 * L.buf.length) 0).drop
              (L.currPos - L.currTokenStart) := by
        rw [listWrite_eq_append _ _ 0 (by
          simp only [List.length_drop, List.length_replicate]; omega)]
        simp only [List.take_zero, List.nil_append, Nat.zero_add]
        congr 2
        simp only [List.length_drop]
        omega
      refine fill_sim { L with
          buf := listWrite (List.replicate (2 * L.buf.length) 0) 0
            (L.buf.drop L.currTokenStart),
          currTokenStart := 0, currPos := L.currPos - L.currTokenStart } _ rfl
        h.state_eq h.counter_eq h.type_eq h.skip_eq h.nf_L h.nf_R h.ref_fin
        h.ref_rest h.pos_le_R h.not_idle hfin ?_ hunL ?_
      · dsimp only
        rw [listWrite_length]
        simp only [List.length_replicate]
        omega
      · intro _
        dsimp only
        refine ⟨by omega, hs2, by omega, ?_⟩
        rw [List.drop_zero, hdst,
          List.take_left' (by simp only [List.length_drop]; omega),
          hwhole]
        exact hs4
    · rw [if_neg hgrow]
      have hdst : listWrite L.buf 0 (L.buf.drop L.currTokenStart) =
          L.buf.drop L.currTokenStart ++
            L.buf.drop (L.currPos - L.currTokenStart) := by
        rw [listWrite_eq_append _ _ 0 (by
          simp only [List.length_drop]; omega)]
        simp only [List.take_zero, List.nil_append, Nat.zero_add]
        congr 2
        simp only [List.length_drop]
        omega
      refine fill_sim { L with
          buf := listWrite L.buf 0 (L.buf.drop L.currTokenStart),
          currTokenStart := 0, currPos := L.currPos - L.currTokenStart } _ rfl
        h.state_eq h.counter_eq h.type_eq h.skip_eq h.nf_L h.nf_R h.ref_fin
        h.ref_rest h.pos_le_R h.not_idle hfin ?_ hunL ?_
      · dsimp only
        rw [listWrite_length]
        omega
      · intro _
        dsimp only
        refine ⟨by omega, hs2, by omega, ?_⟩
        rw [List.drop_zero, hdst,
          List.take_left' (by simp only [List.length_drop]; omega),
          hwhole]
        exact hs4

/-- `feed` changes only the token-machine fields: buffer, source, finished
flag and cursor are untouched by every `processState*` handler. -/
theorem feed_frame (l : JSONLexer) (c : Nat) (l1 : JSONLexer)
    (hf : l.feed c = .ok l1) :
    l1.buf = l.buf ∧ l1.inputRest = l.inputRest ∧
    l1.readingFinished = l.readingFinished ∧ l1.currPos = l.currPos := by
  unfold JSONLexer.feed at hf
  split at hf <;>
    first
      | (cases hf; exact ⟨rfl, rfl, rfl, rfl⟩)
      | (simp only [JSONLexer.processStateSkipping, JSONLexer.processStateString,
            JSONLexer.processStatePendingEscapedSymbol,
            JSONLexer.processStateUnicodeRune, JSONLexer.processStateNumber,
            JSONLexer.processStateNull, JSONLexer.processStateBool] at hf
         split_ifs at hf <;> cases hf <;> exact ⟨rfl, rfl, rfl, rfl⟩)

/-- One unfolding of the `TokenFast` loop. -/
theorem tokenFastLoop_succ (l : JSONLexer) (fuel : Nat) :
    JSONLexer.tokenFastLoop l (fuel + 1) =
      if l.currPos ≥ l.buf.length then
        if l.readingFinished then .error l.shutdown
        else JSONLexer.tokenFastLoop l.fetchNewData fuel
      else
        match l.feed (l.buf.getD l.currPos 0) with
        | .error e => .error e
        | .ok l1 =>
          let l2 := { l1 with currPos := l1.currPos + 1 }
          if l2.newTokenFound then
            JSONLexer.currToken { l2 with newTokenFound := false }
          else JSONLexer.tokenFastLoop l2 fuel := rfl

/-- The fuel `TokenFast` supplies always exceeds the loop potential. -/
theorem tokenCallFuel_gt (l : JSONLexer) :
    JSONLexer.phi l < JSONLexer.tokenCallFuel l := by
  unfold JSONLexer.phi JSONLexer.tokenCallFuel
  split <;> omega

/-- The `TokenFast` loops of two related lexers produce corresponding
outcomes whenever both run on sufficient fuel. -/
theorem tokenFastLoop_sim :
    ∀ (n m : Nat) (L R : JSONLexer), Sim L R →
      JSONLexer.phi L < n → JSONLexer.phi R < m →
      outcomeSim (JSONLexer.tokenFastLoop L n) (JSONLexer.tokenFastLoop R m) := by
  intro n
  induction n with
  | zero => intro m L R h hn hm; exact absurd hn (by omega)
  | succ n' ih =>
    intro m L R h hn hm
    cases m with
    | zero => exact absurd hm (by omega)
    | succ m' =>
      by_cases hLp : L.currPos ≥ L.buf.length
      · rw [tokenFastLoop_succ L n', if_pos hLp]
        by_cases hLf : L.readingFinished = true
        · rw [if_pos hLf]
          have hLrest : L.inputRest = [] := h.fin_rest hLf
          have h1 : L.unread = [] := by
            unfold JSONLexer.unread
            rw [List.drop_eq_nil_of_le (by omega), hLrest]
            rfl
          have h2 : R.unread = [] := h.unread_eq.symm.trans h1
          have hRge : R.currPos ≥ R.buf.length := by
            unfold JSONLexer.unread at h2
            rw [h.ref_rest, List.append_nil] at h2
            have h3 := congrArg List.length h2
            simp only [List.length_drop, List.length_nil] at h3
            omega
          rw [tokenFastLoop_succ R m', if_pos hRge, if_pos h.ref_fin]
          unfold JSONLexer.shutdown
          rw [h.state_eq]
          exact ⟨rfl, by split <;> decide⟩
        · rw [if_neg hLf]
          have hLf' : L.readingFinished = false := by
            revert hLf; cases L.readingFinished <;> simp
          obtain ⟨hs, hphi⟩ := fetch_sim h hLf' hLp
          exact ih (m' + 1) _ R hs (by omega) hm
      · have hLlt : L.currPos < L.buf.length := by omega
        obtain ⟨hRlt, hbyte, -⟩ := sim_head h hLlt
        rw [tokenFastLoop_succ L n', tokenFastLoop_succ R m',
          if_neg hLp, if_neg (by omega : ¬ R.currPos ≥ R.buf.length)]
        have hfr := feed_sim h hLlt
        cases hfL : L.feed (L.buf.getD L.currPos 0) with
        | error e =>
          cases hfR : R.feed (R.buf.getD R.currPos 0) with
          | error e2 =>
            rw [hfL, hfR] at hfr
            obtain ⟨he, hne⟩ := hfr
            subst he
            exact ⟨rfl, hne⟩
          | ok r1 =>
            rw [hfL, hfR] at hfr
            exact hfr.elim
        | ok l1 =>
          cases hfR : R.feed (R.buf.getD R.currPos 0) with
          | error e =>
            rw [hfL, hfR] at hfr
            exact hfr.elim
          | ok r1 =>
            rw [hfL, hfR] at hfr
            obtain ⟨hnf, hkeep, hdone⟩ := hfr
            obtain ⟨hb1, hr1, hf1, hp1⟩ := feed_frame L _ l1 hfL
            obtain ⟨hb2, hr2, hf2, hp2⟩ := feed_frame R _ r1 hfR
            dsimp only
            by_cases hnt : l1.newTokenFound = true
            · rw [if_pos hnt, if_pos (by rw [← hnf]; exact hnt)]
              have htr := currToken_sim (hdone hnt)
              cases hcL : JSONLexer.currToken
                  { l1 with currPos := l1.currPos + 1,
                            newTokenFound := false } with
              | error e =>
                cases hcR : JSONLexer.currToken
                    { r1 with currPos := r1.currPos + 1,
                              newTokenFound := false } with
                | error e2 =>
                  rw [hcL, hcR] at htr
                  exact htr
                | ok q =>
                  rw [hcL, hcR] at htr
                  exact htr.elim
              | ok p =>
                cases hcR : JSONLexer.currToken
                    { r1 with currPos := r1.currPos + 1,
                              newTokenFound := false } with
                | error e2 =>
                  rw [hcL, hcR] at htr
                  exact htr.elim
                | ok q =>
                  obtain ⟨t1, L2⟩ := p
                  obtain ⟨t2, R2⟩ := q
                  rw [hcL, hcR] at htr
                  obtain ⟨ht, hsim2, -⟩ := htr
                  exact ⟨ht, hsim2⟩
            · have hnt' : l1.newTokenFound = false := by
                revert hnt; cases l1.newTokenFound <;> simp
              rw [if_neg hnt, if_neg (by rw [← hnf]; exact hnt)]
              refine ih m' _ _ (hkeep hnt') ?_ ?_
              · have hd : JSONLexer.phi { l1 with currPos := l1.currPos + 1 } <
                    JSONLexer.phi L := by
                  simp only [JSONLexer.phi]
                  rw [hb1, hr1, hf1, hp1]
                  split <;> omega
                omega
              · have hd : JSONLexer.phi { r1 with currPos := r1.currPos + 1 } <
                    JSONLexer.phi R := by
                  simp only [JSONLexer.phi]
                  rw [hb2, hr2, hf2, hp2]
                  split <;> omega
                omega

/-- `TokenFast` on related (non-idle) lexers yields corresponding
outcomes. -/
theorem TokenFast_sim {L R : JSONLexer} (h : Sim L R) :
    outcomeSim L.TokenFast R.TokenFast := by
  unfold JSONLexer.TokenFast
  rw [if_neg h.not_idle, if_neg (show ¬ R.state = .stateLexerIdle from by
    rw [← h.state_eq]; exact h.not_idle)]
  exact tokenFastLoop_sim _ _ L R h (tokenCallFuel_gt L) (tokenCallFuel_gt R)

/-- Draining two related lexers with equal fuel produces identical token
lists and outcomes. -/
theorem lexTokensLoop_sim :
    ∀ (fuel : Nat) (L R : JSONLexer) (acc : List TokenGeneric), Sim L R →
      lexTokensLoop L fuel acc = lexTokensLoop R fuel acc := by
  intro fuel
  induction fuel with
  | zero => intro L R acc h; rfl
  | succ fuel ih =>
    intro L R acc h
    have hTF := TokenFast_sim h
    unfold lexTokensLoop
    cases hL : L.TokenFast with
    | error e =>
      cases hR : R.TokenFast with
      | error e2 =>
        rw [hL, hR] at hTF
        obtain ⟨he, -⟩ := hTF
        subst he
        rfl
      | ok q =>
        rw [hL, hR] at hTF
        exact hTF.elim
    | ok p =>
      cases hR : R.TokenFast with
      | error e =>
        rw [hL, hR] at hTF
        exact hTF.elim
      | ok q =>
        obtain ⟨t1, L1⟩ := p
        obtain ⟨t2, R1⟩ := q
        rw [hL, hR] at hTF
        obtain ⟨ht, hsim⟩ := hTF
        subst ht
        dsimp only
        exact ih L1 R1 (t1 :: acc) hsim

/-- One drain step driven by corresponding `TokenFast` outcomes (used for
the very first call, where the two lexers are still idle and hence not yet
related by `Sim`). -/
theorem lexTokensLoop_step (fuel : Nat) (L R : JSONLexer)
    (acc : List TokenGeneric) (hTF : outcomeSim L.TokenFast R.TokenFast) :
    lexTokensLoop L (fuel + 1) acc = lexTokensLoop R (fuel + 1) acc := by
  unfold lexTokensLoop
  cases hL : L.TokenFast with
  | error e =>
    cases hR : R.TokenFast with
    | error e2 =>
      rw [hL, hR] at hTF
      obtain ⟨he, -⟩ := hTF
      subst he
      rfl
    | ok q =>
      rw [hL, hR] at hTF
      exact hTF.elim
  | ok p =>
    cases hR : R.TokenFast with
    | error e =>
      rw [hL, hR] at hTF
      exact hTF.elim
    | ok q =>
      obtain ⟨t1, L1⟩ := p
      obtain ⟨t2, R1⟩ := q
      rw [hL, hR] at hTF
      obtain ⟨ht, hsim⟩ := hTF
      subst ht
      dsimp only
      exact lexTokensLoop_sim fuel L1 R1 (t1 :: acc) hsim

/-- On an idle lexer `TokenFast` first refills and moves to `Skipping`. -/
theorem TokenFast_idle (l : JSONLexer) (hid : l.state = .stateLexerIdle) :
    l.TokenFast = JSONLexer.tokenFastLoop
      { l.fetchNewData with state := .stateLexerSkipping }
      (JSONLexer.tokenCallFuel
        { l.fetchNewData with state := .stateLexerSkipping }) := by
  unfold JSONLexer.TokenFast
  rw [if_pos hid]

/-- The initial refill of a fresh lexer with buffer size `b`: a source
shorter than the buffer is swallowed whole (finishing the reader), else the
first `b` bytes are loaded. -/
theorem fetch_init (input : List Nat) (b : Nat) (hb : 1 ≤ b) :
    (SetBufSize (NewJSONLexer input) b).fetchNewData =
      if input.length < b then
        { inputRest := [], readingFinished := true,
          state := .stateLexerIdle, buf := input, currPos := 0,
          unicodeRuneBytesCounter := 0, currTokenStart := 0,
          currTokenEnd := 0, currTokenType := .LexerTokenTypeDelim,
          newTokenFound := false, skipDelims := false }
      else
        { inputRest := input.drop b, readingFinished := false,
          state := .stateLexerIdle, buf := input.take b, currPos := 0,
          unicodeRuneBytesCounter := 0, currTokenStart := 0,
          currTokenEnd := 0, currTokenType := .LexerTokenTypeDelim,
          newTokenFound := false, skipDelims := false } := by
  unfold SetBufSize NewJSONLexer JSONLexer.fetchNewData
  rw [if_neg (show ¬(lexerState.stateLexerIdle ≠ lexerState.stateLexerSkipping ∧
      lexerState.stateLexerIdle ≠ lexerState.stateLexerIdle) by simp)]
  dsimp only
  simp only [List.length_replicate, Nat.sub_zero]
  by_cases hlen : input.length < b
  · rw [min_eq_right (le_of_lt hlen), if_pos hlen]
    have hw := listWrite_eq_append input (List.replicate b 0) 0
      (by simp only [List.length_replicate]; omega)
    rw [List.take_length, List.drop_length, hw]
    simp only [List.take_zero, List.nil_append, Nat.zero_add]
    rw [List.take_left' rfl, if_pos hlen]
  · rw [min_eq_left (le_of_not_lt hlen),
      if_neg (show ¬ b < b by omega), if_neg hlen]
    have hw := listWrite_eq_append (input.take b) (List.replicate b 0) 0
      (by simp only [List.length_take, List.length_replicate]; omega)
    rw [hw]
    simp only [List.take_zero, List.nil_append, Nat.zero_add]
    rw [show (input.take b).length = b by (simp only [List.length_take]; omega),
      List.drop_eq_nil_of_le
        (show (List.replicate b (0 : Nat)).length ≤ b by
          (simp only [List.length_replicate]; omega)),
      List.append_nil]

/-- After their initial refills, a fresh lexer with buffer size `b ≥ 1` and
the reference lexer (buffer size `|input| + 1`, which swallows the whole
source) are related. -/
theorem init_sim (input : List Nat) (b : Nat) (hb : 1 ≤ b) :
    Sim { (SetBufSize (NewJSONLexer input) b).fetchNewData with
            state := .stateLexerSkipping }
        { (SetBufSize (NewJSONLexer input) (input.length + 1)).fetchNewData with
            state := .stateLexerSkipping } := by
  rw [fetch_init input b hb, fetch_init input (input.length + 1) (by omega),
    if_pos (by omega : input.length < input.length + 1)]
  by_cases hlen : input.length < b
  · rw [if_pos hlen]
    refine ⟨rfl, rfl, rfl, rfl, rfl, rfl, rfl, ?_, ?_, rfl, rfl, ?_, ?_, ?_, ?_⟩
    · dsimp only; omega
    · dsimp only; omega
    · intro _; rfl
    · intro hx; cases hx
    · intro hx; cases hx
    · intro hx; simp [inToken] at hx
  · rw [if_neg hlen]
    refine ⟨rfl, rfl, rfl, rfl, rfl, rfl, ?_, ?_, ?_, rfl, rfl, ?_, ?_, ?_, ?_⟩
    · unfold JSONLexer.unread
      dsimp only
      rw [List.drop_zero, List.drop_zero, List.take_append_drop,
        List.append_nil]
    · dsimp only; omega
    · dsimp only; omega
    · intro hx; cases hx
    · intro _
      dsimp only
      simp only [List.length_take]
      omega
    · intro hx; cases hx
    · intro hx; simp [inToken] at hx

/-- C2: buffer-size invariance.  Every initial buffer size from 2 upward
yields the very same token stream and outcome — the refill/grow path does
not alter semantics — and a token longer than the buffer (here a 5-byte
string lexed with a 2-byte buffer, which must grow during refill) is still
produced correctly. -/
theorem C2_buffer_size_invariance :
    (∀ (input : List Nat) (b1 b2 : Nat), 2 ≤ b1 → 2 ≤ b2 →
      lexTokens input b1 = lexTokens input b2) ∧
    lexTokens [34, 104, 101, 108, 108, 111, 34] 2 =
      ([newTokenGenericFromString [104, 101, 108, 108, 111]], .eofOk) := by
  have key : ∀ (input : List Nat) (b : Nat), 1 ≤ b →
      lexTokens input b = lexTokens input (input.length + 1) := by
    intro input b hb
    unfold lexTokens
    rw [show input.length + 2 = input.length + 1 + 1 from by omega]
    apply lexTokensLoop_step
    rw [TokenFast_idle _ rfl, TokenFast_idle _ rfl]
    exact tokenFastLoop_sim _ _ _ _ (init_sim input b hb)
      (tokenCallFuel_gt _) (tokenCallFuel_gt _)
  refine ⟨fun input b1 b2 h1 h2 => ?_, rfl⟩
  rw [key input b1 (by omega), key input b2 (by omega)]

theorem C2_buffer_size_invariance_witness :
    2 ≤ 2 ∧ 2 ≤ 33 ∧
    lexTokens [34, 104, 101, 108, 108, 111, 34] 2 =
      lexTokens [34, 104, 101, 108, 108, 111, 34] 33 :=
  ⟨by decide, by decide,
    C2_buffer_size_invariance.1 [34, 104, 101, 108, 108, 111, 34] 2 33
      (by decide) (by decide)⟩


theorem C10_literal_completion_byte_blind_witness :
    (JSONLexer.processStateNull
        { inputRest := [], readingFinished := true,
          state := .stateLexerNull, buf := [110, 117, 108, 108, 64],
          currPos := 4, unicodeRuneBytesCounter := 0, currTokenStart := 0,
          currTokenEnd := 0, currTokenType := .LexerTokenTypeNull,
          newTokenFound := false, skipDelims := false } 64 =
      JSONLexer.processStateNull
        { inputRest := [], readingFinished := true,
          state := .stateLexerNull, buf := [110, 117, 108, 108, 64],
          currPos := 4, unicodeRuneBytesCounter := 0, currTokenStart := 0,
          currTokenEnd := 0, currTokenType := .LexerTokenTypeNull,
          newTokenFound := false, skipDelims := false } 35) ∧
    lexTokens ([110, 117, 108, 108] ++ 64 :: [34, 97, 34]) 8 =
      ([newTokenGenericFromNull, newTokenGenericFromString [97]], .eofOk) :=
  ⟨(C10_literal_completion_byte_blind.1
      ⟨[], true, .stateLexerNull, [110, 117, 108, 108, 64], 4, 0, 0, 0,
        .LexerTokenTypeNull, false, false⟩ 64 35 (by decide)).1,
   C10_literal_completion_byte_blind.2.2.2.1 64 (by decide)⟩

end Gojsonlex
